import Mathlib

/-!
# Verification of the taxi "silver" cleaning pipeline (`clean_to_silver.py`)

A shallow embedding of the pipeline in `src/clean_to_silver.py`: a table is a
list of column names together with a list of rows, each row a list of cells
aligned positionally with the column list (a pandas `DataFrame` is always
rectangular; the predicate `Rect` states that alignment).  A cell is a number
(modelled as a rational, standing for the float), a boolean, a string
(modelled as a list of characters, so that Python's `str.strip` / `str.lower`
/ `str.replace` become simple list operations), or the missing marker (NaN).

The five stages `normalize_columns`, `coerce_types`, `clean_rows`,
`recompute_duration_fields` and `drop_duplicates_by_key` are translated
one to one from the source, and `pipeline` is their composition in the order
of `main`.
-/

namespace TaxiSilver

/-- Python strings, modelled as lists of characters. -/
abbrev Str := List Char

/-- A cell of the table: a number (pandas float, NaN excluded), a boolean,
a string, or the missing marker (NaN / None). -/
inductive Value where
  | num (q : ℚ)
  | bool (b : Bool)
  | str (s : Str)
  | missing
deriving DecidableEq

/-- A pandas `DataFrame`: column names plus rows of cells, each row aligned
positionally with the column list. -/
structure Table where
  cols : List Str
  rows : List (List Value)
deriving DecidableEq

/-- Rectangularity: every row has exactly one cell per column.  A pandas
`DataFrame` always satisfies this. -/
def Rect (t : Table) : Prop := ∀ r ∈ t.rows, r.length = t.cols.length

/-- The position of column `c` in the column list (its length when absent),
as pandas uses to address a column's cells. -/
def colIdx (c : Str) : List Str → ℕ
  | [] => 0
  | c' :: cs => if c' = c then 0 else colIdx c cs + 1

/-- Reading the cell of column `c` in row `r`: the entry at the column's
index, or the missing marker when out of range. -/
def cellAt (cols : List Str) (r : List Value) (c : Str) : Value :=
  (r[colIdx c cols]?).getD Value.missing

/-- `NUM_COLS`: columns expected to be numeric if present. -/
def NUM_COLS : List Str :=
  ["trip_duration_sec".data, "trip_duration_min".data, "trip_duration_hr".data,
   "distance_traveled_km".data, "kph".data,
   "wait_time_cost".data, "distance_cost".data, "fare_w_flag".data,
   "tip".data, "miscellaneous_fees".data, "total_fare_new".data,
   "num_of_passengers".data]

/-- `MONEY_COLS`: money-like columns (must be `>= 0` if present). -/
def MONEY_COLS : List Str :=
  ["wait_time_cost".data, "distance_cost".data, "fare_w_flag".data,
   "tip".data, "miscellaneous_fees".data, "total_fare_new".data]

/-- `COMPOSITE_KEY`: the composite key used for de-duplication. -/
def COMPOSITE_KEY : List Str :=
  ["trip_duration_sec".data, "distance_traveled_km".data, "total_fare_new".data,
   "num_of_passengers".data, "tip".data, "surge_applied".data]

/-! ## Stage 1: `normalize_columns` -/

/-- Python `str.strip`: drop leading and trailing whitespace. -/
def stripStr (s : Str) : Str :=
  ((s.dropWhile Char.isWhitespace).reverse.dropWhile Char.isWhitespace).reverse

/-- Python `str.lower` (per character). -/
def lowerStr (s : Str) : Str := s.map Char.toLower

/-- Python `str.replace` with a one-character pattern and a one-character
replacement: replace every occurrence. -/
def replaceChar (a b : Char) (s : Str) : Str :=
  s.map (fun c => if c = a then b else c)

/-- The column-name canonicalization applied by `normalize_columns`:
`.str.strip().str.lower().str.replace(" ", "_").str.replace("-", "_")`. -/
def canon (s : Str) : Str :=
  replaceChar '-' '_' (replaceChar ' ' '_' (lowerStr (stripStr s)))

/-- `normalize_columns`: canonicalize every column name; rows untouched. -/
def normalize_columns (t : Table) : Table :=
  { cols := t.cols.map canon, rows := t.rows }

/-! ## Stage 2: `coerce_types` -/

/-- Value of the digit list `ds` read in base 10 (total; only applied to
all-digit lists). -/
def digitsToNat (ds : List Char) : ℕ :=
  ds.foldl (fun n c => 10 * n + (c.toNat - 48)) 0

/-- Split a character list at every `'.'`. -/
def splitDot : Str → List Str
  | [] => [[]]
  | c :: cs =>
    if c = '.' then [] :: splitDot cs
    else
      match splitDot cs with
      | [] => [[c]]
      | h :: t => (c :: h) :: t

/-- Decimal-number parsing as performed by `pd.to_numeric` on a string cell:
optional surrounding whitespace, optional sign, digits with an optional
decimal point (at least one digit overall).  Exponent notation is not
modelled; no claim depends on which well-formed spellings parse, only on
what happens when parsing succeeds or fails. -/
def parseRat (s : Str) : Option ℚ :=
  let s0 := stripStr s
  let sgn : ℚ × Str :=
    match s0 with
    | '-' :: rest => (-1, rest)
    | '+' :: rest => (1, rest)
    | _ => (1, s0)
  match splitDot sgn.2 with
  | [ds] =>
    if ds ≠ [] ∧ ds.all Char.isDigit then some (sgn.1 * digitsToNat ds) else none
  | [ds, fs] =>
    if (ds ≠ [] ∨ fs ≠ []) ∧ ds.all Char.isDigit ∧ fs.all Char.isDigit then
      some (sgn.1 * ((digitsToNat ds : ℚ) + (digitsToNat fs : ℚ) / (10 : ℚ) ^ fs.length))
    else none
  | _ => none

/-- `pd.to_numeric(x, errors="coerce")` on one cell: numbers stay, booleans
become 0/1, missing stays missing, and a string parses to a number or is
replaced by the missing marker. -/
def to_numeric_cell : Value → Value
  | .num q => .num q
  | .bool b => .num (if b then 1 else 0)
  | .str s =>
    match parseRat s with
    | some q => .num q
    | none => .missing
  | .missing => .missing

/-- Apply `f` to the cell of column `c` of one row (in-place column update). -/
def setRowCol (cols : List Str) (c : Str) (f : Value → Value) (r : List Value) :
    List Value :=
  r.set (colIdx c cols) (f (cellAt cols r c))

/-- `d[c] = f(d[c])` when column `c` is present, identity otherwise. -/
def mapCol (t : Table) (c : Str) (f : Value → Value) : Table :=
  if c ∈ t.cols then
    { cols := t.cols, rows := t.rows.map (setRowCol t.cols c f) }
  else t

/-- The numeric-coercion loop of `coerce_types`. -/
def coerceNum (t : Table) : Table :=
  NUM_COLS.foldl (fun d c => mapCol d c to_numeric_cell) t

/-- The column name `surge_applied`. -/
def surgeCol : Str := "surge_applied".data

/-- Whether a column has pandas `object` (textual) dtype: in a frame read
from CSV this is the case exactly when the column holds string cells. -/
def isTextualCol (t : Table) (c : Str) : Bool :=
  t.rows.any (fun r =>
    match cellAt t.cols r c with
    | .str _ => true
    | _ => false)

/-- Python `str()` of a cell, as applied by `.astype(str)`: strings stay,
NaN prints as `nan`, booleans as `True` / `False`.  The print form of a
number is approximated by the rational's print form; only its membership in
the mapping dictionary below matters, and no digit string collides with
`true` / `false`. -/
def pyStr : Value → Str
  | .str s => s
  | .missing => "nan".data
  | .bool true => "True".data
  | .bool false => "False".data
  | .num q => (toString q).data

/-- The dictionary of `.map({"true": True, "false": False, "1": True,
"0": False})`: `none` is the NaN produced for an unmapped key. -/
def surgeMap (s : Str) : Option Bool :=
  if s = "true".data then some true
  else if s = "false".data then some false
  else if s = "1".data then some true
  else if s = "0".data then some false
  else none

/-- The textual branch of the `surge_applied` coercion:
`.astype(str).str.strip().str.lower().map({...}).fillna(False)`. -/
def coerceSurgeTextual (v : Value) : Value :=
  .bool ((surgeMap (lowerStr (stripStr (pyStr v)))).getD false)

/-- Python / numpy truthiness, as applied by `.astype(bool)`: zero is false,
any other number is true, and NaN — being a nonzero float — is true. -/
def truthy : Value → Bool
  | .num q => if q = 0 then false else true
  | .bool b => b
  | .str s => if s = [] then false else true
  | .missing => true

/-- The non-textual branch of the `surge_applied` coercion: `.astype(bool)`. -/
def coerceSurgeTruthy (v : Value) : Value := .bool (truthy v)

/-- `coerce_types`: numeric coercion of every present `NUM_COLS` column
(`d` in the source is `coerceNum t`), then boolean coercion of
`surge_applied` (textual branch when the column's dtype is `object`,
plain truthiness cast otherwise). -/
def coerce_types (t : Table) : Table :=
  if surgeCol ∈ (coerceNum t).cols then
    if isTextualCol (coerceNum t) surgeCol then
      mapCol (coerceNum t) surgeCol coerceSurgeTextual
    else mapCol (coerceNum t) surgeCol coerceSurgeTruthy
  else coerceNum t

/-! ## Stage 3: `clean_rows` -/

/-- `fillna(0)` composed with the numeric view of a cell: the number itself,
or 0 for the missing marker (cells of filtered columns are numeric or
missing after coercion). -/
def numOr0 : Value → ℚ
  | .num q => q
  | _ => 0

/-- The rule `fillna(0) > 0`. -/
def posPred (v : Value) : Bool := decide (0 < numOr0 v)

/-- The rule `fillna(0) >= 0`. -/
def nonnegPred (v : Value) : Bool := decide (0 ≤ numOr0 v)

/-- The rule `fillna(0) >= 1`. -/
def atLeastOnePred (v : Value) : Bool := decide (1 ≤ numOr0 v)

/-- Comparison without `fillna`: NaN compares false, as in pandas. -/
def leNoFill (v : Value) (b : ℚ) : Bool :=
  match v with
  | .num q => decide (q ≤ b)
  | _ => false

/-- The speed rule `(kph.fillna(0) > 0) & (kph <= 160)`. -/
def kphPred (v : Value) : Bool := posPred v && leNoFill v 160

/-- `df = df[df[c] ...]` guarded by `if c in df`: filter the rows by a
predicate on column `c` when the column is present, identity otherwise. -/
def filterCol (t : Table) (c : Str) (p : Value → Bool) : Table :=
  if c ∈ t.cols then
    { cols := t.cols, rows := t.rows.filter (fun r => p (cellAt t.cols r c)) }
  else t

/-- `clean_rows`: positive duration and distance, non-negative money,
at least one passenger, speed in (0, 160]. -/
def clean_rows (t : Table) : Table :=
  let df := filterCol t "trip_duration_sec".data posPred
  let df := filterCol df "trip_duration_min".data posPred
  let df := filterCol df "distance_traveled_km".data posPred
  let df := MONEY_COLS.foldl (fun d m => filterCol d m nonnegPred) df
  let df := filterCol df "num_of_passengers".data atLeastOnePred
  let df := filterCol df "kph".data kphPred
  df

/-! ## Stage 4: `recompute_duration_fields` -/

/-- Division of a cell by a constant: NaN propagates. -/
def divV (v : Value) (d : ℚ) : Value :=
  match v with
  | .num q => .num (q / d)
  | _ => .missing

/-- Round-half-to-even to an integer, numpy's rounding mode. -/
def roundHalfEven (q : ℚ) : ℤ :=
  if q - ⌊q⌋ < 1 / 2 then ⌊q⌋
  else if 1 / 2 < q - ⌊q⌋ then ⌊q⌋ + 1
  else if ⌊q⌋ % 2 = 0 then ⌊q⌋ else ⌊q⌋ + 1

/-- Pandas `.round(6)`: round to 6 decimal places (half to even). -/
def round6 (q : ℚ) : ℚ := (roundHalfEven (q * 1000000) : ℚ) / 1000000

/-- `.round(6)` on a cell: NaN propagates. -/
def round6V (v : Value) : Value :=
  match v with
  | .num q => .num (round6 q)
  | _ => .missing

/-- `d[c] = series`: overwrite column `c` in place when present, append it
as the last column otherwise; the new cell is computed from the whole row. -/
def setCol (t : Table) (c : Str) (f : List Value → Value) : Table :=
  if c ∈ t.cols then
    { cols := t.cols, rows := t.rows.map (fun r => r.set (colIdx c t.cols) (f r)) }
  else
    { cols := t.cols ++ [c], rows := t.rows.map (fun r => r ++ [f r]) }

/-- `recompute_duration_fields`: ensure minutes exist (derived from seconds
when absent), then always recompute hours from minutes — or from seconds
when no minutes column exists — rounded to 6 decimal places. -/
def recompute_duration_fields (t : Table) : Table :=
  let d :=
    if "trip_duration_min".data ∉ t.cols ∧ "trip_duration_sec".data ∈ t.cols then
      setCol t "trip_duration_min".data
        (fun r => divV (cellAt t.cols r "trip_duration_sec".data) 60)
    else t
  if "trip_duration_min".data ∈ d.cols then
    setCol d "trip_duration_hr".data
      (fun r => round6V (divV (cellAt d.cols r "trip_duration_min".data) 60))
  else if "trip_duration_sec".data ∈ d.cols then
    setCol d "trip_duration_hr".data
      (fun r => round6V (divV (cellAt d.cols r "trip_duration_sec".data) 3600))
  else d

/-! ## Stage 5: `drop_duplicates_by_key` -/

/-- The projection of a row onto the key columns (the equality pandas
`duplicated` / `drop_duplicates` compare; NaN equals NaN here, matching
pandas' treatment of missing keys). -/
def keyOf (cols key : List Str) (r : List Value) : List Value :=
  key.map (cellAt cols r)

/-- `df.drop_duplicates(subset=key)`: keep the first occurrence of every
key value; `seen` accumulates the key values already kept. -/
def dropDup (cols key : List Str) : List (List Value) → List (List Value) → List (List Value)
  | _, [] => []
  | seen, r :: rs =>
    if keyOf cols key r ∈ seen then dropDup cols key seen rs
    else r :: dropDup cols key (keyOf cols key r :: seen) rs

/-- `df.duplicated(subset=key).sum()`: how many rows repeat an earlier key. -/
def dupCount (cols key : List Str) : List (List Value) → List (List Value) → ℕ
  | _, [] => 0
  | seen, r :: rs =>
    if keyOf cols key r ∈ seen then 1 + dupCount cols key seen rs
    else dupCount cols key (keyOf cols key r :: seen) rs

/-- `drop_duplicates_by_key`: dedup on the present composite-key columns
(`key = [c for c in COMPOSITE_KEY if c in df.columns]`), returning the
table, the duplicate count and the key actually used; a no-op with count 0
when no key column is present. -/
def drop_duplicates_by_key (t : Table) : Table × ℕ × List Str :=
  if COMPOSITE_KEY.filter (fun c => c ∈ t.cols) = [] then (t, 0, [])
  else
    ({ cols := t.cols,
       rows := dropDup t.cols (COMPOSITE_KEY.filter (fun c => c ∈ t.cols)) [] t.rows },
     dupCount t.cols (COMPOSITE_KEY.filter (fun c => c ∈ t.cols)) [] t.rows,
     COMPOSITE_KEY.filter (fun c => c ∈ t.cols))

/-- The whole pipeline of `main`, from the raw table to the written table
plus the reported duplicate count and key. -/
def pipeline (t : Table) : Table × ℕ × List Str :=
  drop_duplicates_by_key
    (recompute_duration_fields (clean_rows (coerce_types (normalize_columns t))))

/-! ## Support definitions for the statements and proofs -/

/-- The per-row effect of the numeric-coercion loop (`coerceNum`): apply the
per-cell coercion to the cell of every present column of `L` in turn. -/
def rowFold (cols : List Str) (f : Value → Value) (L : List Str) (r : List Value) :
    List Value :=
  L.foldl (fun r c => if c ∈ cols then setRowCol cols c f r else r) r

/-- The per-row effect of the `surge_applied` coercion of `coerce_types`. -/
def surgeStep (t : Table) (r : List Value) : List Value :=
  if surgeCol ∈ t.cols then
    if isTextualCol (coerceNum t) surgeCol then setRowCol t.cols surgeCol coerceSurgeTextual r
    else setRowCol t.cols surgeCol coerceSurgeTruthy r
  else r

/-- The per-row effect of `setCol`: overwrite the cell of `c` in place when
the column exists, append the new cell otherwise. -/
def setColRow (t : Table) (c : Str) (f : List Value → Value) (r : List Value) : List Value :=
  if c ∈ t.cols then r.set (colIdx c t.cols) (f r) else r ++ [f r]

/-- The columns referenced by some validity rule of `clean_rows`, in the
order the rules are applied. -/
def RULE_COLS : List Str :=
  ["trip_duration_sec".data, "trip_duration_min".data, "distance_traveled_km".data] ++
    MONEY_COLS ++ ["num_of_passengers".data, "kph".data]

/-- The validity rule `clean_rows` applies to a given column (the constant
true predicate for a column no rule mentions). -/
def rulePred (c : Str) : Value → Bool :=
  if c = "trip_duration_sec".data ∨ c = "trip_duration_min".data ∨
      c = "distance_traveled_km".data then posPred
  else if c ∈ MONEY_COLS then nonnegPred
  else if c = "num_of_passengers".data then atLeastOnePred
  else if c = "kph".data then kphPred
  else fun _ => true

/-- The effect of the canonicalization on one character: lowercase, then
space and hyphen become underscore (the two `str.replace` passes composed). -/
def canonChar (c : Char) : Char :=
  if c.toLower = ' ' then '_'
  else if c.toLower = '-' then '_'
  else c.toLower

/-- The cell holds a strictly positive number. -/
def isPos (v : Value) : Prop := ∃ q, v = Value.num q ∧ 0 < q

/-- The cell is a number or the missing marker (never an unparsed string). -/
def isNumOrMissing (v : Value) : Prop := (∃ q, v = Value.num q) ∨ v = Value.missing

/-- A one-row table with distance, tip, passenger count and speed columns;
the tip is missing, the other values are valid. -/
def sampleValid : Table :=
  { cols := ["distance_traveled_km".data, "tip".data, "num_of_passengers".data, "kph".data],
    rows := [[Value.num 2, Value.missing, Value.num 1, Value.num 30]] }

/-- A one-row table with only a seconds column. -/
def sampleSeconds : Table :=
  { cols := ["trip_duration_sec".data], rows := [[Value.num 120]] }

/-- A one-row table whose `surge_applied` column is textual. -/
def sampleSurgeText : Table :=
  { cols := ["surge_applied".data], rows := [[Value.str "TRUE".data]] }

/-- A one-row table whose `surge_applied` column is non-textual and missing. -/
def sampleSurgeMissing : Table :=
  { cols := ["surge_applied".data], rows := [[Value.missing]] }

/-- A one-row table whose tip cell is an unparseable string. -/
def sampleUnparseable : Table :=
  { cols := ["tip".data], rows := [[Value.str "abc".data]] }

/-- A one-row table with only an hours column holding a negative value. -/
def sampleHourOnly : Table :=
  { cols := ["trip_duration_hr".data], rows := [[Value.num (-5)]] }

/-! ## Cell access and update -/

theorem colIdx_cons (c c0 : Str) (cs : List Str) :
    colIdx c (c0 :: cs) = if c0 = c then 0 else colIdx c cs + 1 := rfl

theorem colIdx_lt_length {c : Str} {cols : List Str} (h : c ∈ cols) :
    colIdx c cols < cols.length := by
  induction cols with
  | nil => cases h
  | cons c0 cs ih =>
    rw [colIdx_cons]
    by_cases h0 : c0 = c
    · simp [h0]
    · have : c ∈ cs := by
        rcases List.mem_cons.1 h with h1 | h1
        · exact absurd h1.symm h0
        · exact h1
      simp only [h0, if_false, List.length_cons]
      exact Nat.succ_lt_succ (ih this)

theorem colIdx_eq_length {c : Str} {cols : List Str} (h : c ∉ cols) :
    colIdx c cols = cols.length := by
  induction cols with
  | nil => rfl
  | cons c0 cs ih =>
    rw [colIdx_cons]
    have h0 : c0 ≠ c := fun he => h (he ▸ List.mem_cons_self c0 cs)
    have h1 : c ∉ cs := fun hm => h (List.mem_cons_of_mem _ hm)
    simp [h0, ih h1]

theorem getElem?_colIdx {c : Str} {cols : List Str} (h : c ∈ cols) :
    cols[colIdx c cols]? = some c := by
  induction cols with
  | nil => cases h
  | cons c0 cs ih =>
    rw [colIdx_cons]
    by_cases h0 : c0 = c
    · simp [h0]
    · have : c ∈ cs := by
        rcases List.mem_cons.1 h with h1 | h1
        · exact absurd h1.symm h0
        · exact h1
      simp [h0, ih this]

theorem colIdx_inj {c c' : Str} {cols : List Str} (hc : c ∈ cols) (hc' : c' ∈ cols)
    (h : colIdx c cols = colIdx c' cols) : c = c' := by
  have h1 := getElem?_colIdx hc
  have h2 := getElem?_colIdx hc'
  rw [h] at h1
  rw [h1] at h2
  exact (Option.some_inj.1 h2)

theorem colIdx_ne_of_ne {cols : List Str} {c c' : Str} (hc : c ∈ cols) (hc' : c' ∈ cols)
    (h : c ≠ c') : colIdx c cols ≠ colIdx c' cols :=
  fun he => h (colIdx_inj hc hc' he)

theorem colIdx_append_of_mem {c : Str} {l1 l2 : List Str} (h : c ∈ l1) :
    colIdx c (l1 ++ l2) = colIdx c l1 := by
  induction l1 with
  | nil => cases h
  | cons c0 cs ih =>
    rw [List.cons_append, colIdx_cons, colIdx_cons]
    by_cases h0 : c0 = c
    · simp [h0]
    · have hm : c ∈ cs := by
        rcases List.mem_cons.1 h with h1 | h1
        · exact absurd h1.symm h0
        · exact h1
      simp [h0, ih hm]

theorem colIdx_append_of_not_mem {c : Str} {l1 l2 : List Str} (h : c ∉ l1) :
    colIdx c (l1 ++ l2) = l1.length + colIdx c l2 := by
  induction l1 with
  | nil => simp
  | cons c0 cs ih =>
    have h0 : c0 ≠ c := fun he => h (he ▸ List.mem_cons_self c0 cs)
    have h1 : c ∉ cs := fun hm => h (List.mem_cons_of_mem _ hm)
    rw [List.cons_append, colIdx_cons]
    simp only [h0, if_false, ih h1, List.length_cons]
    omega

theorem cellAt_set_ne {cols : List Str} {c c' : Str} (hc : c ∈ cols) (hc' : c' ∈ cols)
    (h : c ≠ c') (r : List Value) (v : Value) :
    cellAt cols (r.set (colIdx c cols) v) c' = cellAt cols r c' := by
  unfold cellAt
  rw [List.getElem?_set_ne (colIdx_ne_of_ne hc hc' h)]

theorem cellAt_setRowCol_ne {cols : List Str} {c c' : Str} (hc : c ∈ cols) (hc' : c' ∈ cols)
    (h : c ≠ c') (f : Value → Value) (r : List Value) :
    cellAt cols (setRowCol cols c f r) c' = cellAt cols r c' :=
  cellAt_set_ne hc hc' h r _

theorem cellAt_set_self_of_lt {cols : List Str} {c : Str} {r : List Value}
    (h : colIdx c cols < r.length) (v : Value) :
    cellAt cols (r.set (colIdx c cols) v) c = v := by
  unfold cellAt
  rw [List.getElem?_set_self h]
  rfl

theorem cellAt_setRowCol_self_of_lt {cols : List Str} {c : Str} {f : Value → Value}
    {r : List Value} (h : colIdx c cols < r.length) :
    cellAt cols (setRowCol cols c f r) c = f (cellAt cols r c) :=
  cellAt_set_self_of_lt h _

theorem cellAt_eq_missing_of_le {cols : List Str} {c : Str} {r : List Value}
    (h : r.length ≤ colIdx c cols) : cellAt cols r c = Value.missing := by
  unfold cellAt
  rw [List.getElem?_eq_none h]
  rfl

theorem cellAt_setRowCol_self_missing {cols : List Str} {c : Str} {f : Value → Value}
    {r : List Value} (hf : f Value.missing = Value.missing) :
    cellAt cols (setRowCol cols c f r) c = f (cellAt cols r c) := by
  rcases lt_or_le (colIdx c cols) r.length with hlt | hle
  · exact cellAt_setRowCol_self_of_lt hlt
  · rw [cellAt_eq_missing_of_le hle, hf]
    unfold setRowCol
    rw [List.set_eq_of_length_le hle]
    exact cellAt_eq_missing_of_le hle

theorem cellAt_setRowCol_self_of_ne_missing {cols : List Str} {c : Str} {f : Value → Value}
    {r : List Value} (h : cellAt cols r c ≠ Value.missing) :
    cellAt cols (setRowCol cols c f r) c = f (cellAt cols r c) := by
  rcases lt_or_le (colIdx c cols) r.length with hlt | hle
  · exact cellAt_setRowCol_self_of_lt hlt
  · exact absurd (cellAt_eq_missing_of_le hle) h

theorem length_setRowCol (cols : List Str) (c : Str) (f : Value → Value) (r : List Value) :
    (setRowCol cols c f r).length = r.length :=
  List.length_set r _ _

/-! ## The type coercer -/

theorem rowFold_nil (cols : List Str) (f : Value → Value) (r : List Value) :
    rowFold cols f [] r = r := rfl

theorem rowFold_cons (cols : List Str) (f : Value → Value) (c : Str) (L : List Str)
    (r : List Value) :
    rowFold cols f (c :: L) r =
      rowFold cols f L (if c ∈ cols then setRowCol cols c f r else r) := rfl

theorem mapCol_cols (t : Table) (c : Str) (f : Value → Value) :
    (mapCol t c f).cols = t.cols := by
  unfold mapCol
  split <;> rfl

theorem mapCol_rows (t : Table) (c : Str) (f : Value → Value) :
    (mapCol t c f).rows =
      t.rows.map (fun r => if c ∈ t.cols then setRowCol t.cols c f r else r) := by
  unfold mapCol
  by_cases h : c ∈ t.cols
  · simp [h]
  · simp [h]

theorem foldl_mapCol_cols (f : Value → Value) (L : List Str) (t : Table) :
    (L.foldl (fun d c => mapCol d c f) t).cols = t.cols := by
  induction L generalizing t with
  | nil => rfl
  | cons c L ih => rw [List.foldl_cons, ih, mapCol_cols]

theorem foldl_mapCol_rows (f : Value → Value) (L : List Str) (t : Table) :
    (L.foldl (fun d c => mapCol d c f) t).rows = t.rows.map (rowFold t.cols f L) := by
  induction L generalizing t with
  | nil =>
    have h : rowFold t.cols f [] = fun r => r := rfl
    rw [h, List.map_id']
    rfl
  | cons c L ih =>
    rw [List.foldl_cons, ih, mapCol_cols, mapCol_rows, List.map_map]
    rfl

theorem length_rowFold (cols : List Str) (f : Value → Value) (L : List Str)
    (r : List Value) : (rowFold cols f L r).length = r.length := by
  induction L generalizing r with
  | nil => rfl
  | cons c L ih =>
    rw [rowFold_cons, ih]
    by_cases h : c ∈ cols
    · simp [h, length_setRowCol]
    · simp [h]

theorem cellAt_rowFold_not_mem {cols : List Str} {f : Value → Value} {c' : Str}
    (hc' : c' ∈ cols) :
    ∀ (L : List Str), c' ∉ L → ∀ r, cellAt cols (rowFold cols f L r) c' = cellAt cols r c'
  | [], _, _ => rfl
  | c :: L, hL, r => by
    have hne : c ≠ c' := fun he => hL (he ▸ List.mem_cons_self c L)
    have hL' : c' ∉ L := fun hm => hL (List.mem_cons_of_mem _ hm)
    rw [rowFold_cons, cellAt_rowFold_not_mem hc' L hL']
    by_cases hc : c ∈ cols
    · simp only [hc, if_true]
      exact cellAt_setRowCol_ne hc hc' hne f r
    · simp [hc]

theorem cellAt_rowFold_mem {cols : List Str} {f : Value → Value}
    (hf : f Value.missing = Value.missing) (hidem : ∀ v, f (f v) = f v) {c : Str}
    (hc : c ∈ cols) :
    ∀ (L : List Str), c ∈ L → ∀ r, cellAt cols (rowFold cols f L r) c = f (cellAt cols r c)
  | [], hL, _ => absurd hL (List.not_mem_nil c)
  | c0 :: L, hL, r => by
    rw [rowFold_cons]
    by_cases h0 : c0 = c
    · subst h0
      simp only [hc, if_true]
      by_cases hL' : c0 ∈ L
      · rw [cellAt_rowFold_mem hf hidem hc L hL', cellAt_setRowCol_self_missing hf, hidem]
      · rw [cellAt_rowFold_not_mem hc L hL', cellAt_setRowCol_self_missing hf]
    · have hL' : c ∈ L := by
        rcases List.mem_cons.1 hL with h1 | h1
        · exact absurd h1.symm h0
        · exact h1
      rw [cellAt_rowFold_mem hf hidem hc L hL']
      by_cases hc0 : c0 ∈ cols
      · simp only [hc0, if_true]
        rw [cellAt_setRowCol_ne hc0 hc h0 f r]
      · simp [hc0]

theorem coerceNum_cols (t : Table) : (coerceNum t).cols = t.cols :=
  foldl_mapCol_cols _ _ _

theorem coerceNum_rows (t : Table) :
    (coerceNum t).rows = t.rows.map (rowFold t.cols to_numeric_cell NUM_COLS) :=
  foldl_mapCol_rows _ _ _

theorem to_numeric_cell_missing : to_numeric_cell Value.missing = Value.missing := rfl

theorem isNumOrMissing_to_numeric_cell (v : Value) : isNumOrMissing (to_numeric_cell v) := by
  cases v with
  | num q => exact Or.inl ⟨q, rfl⟩
  | bool b => exact Or.inl ⟨if b then 1 else 0, rfl⟩
  | str s =>
    cases h : parseRat s with
    | none => exact Or.inr (by simp [to_numeric_cell, h])
    | some q => exact Or.inl ⟨q, by simp [to_numeric_cell, h]⟩
  | missing => exact Or.inr rfl

theorem to_numeric_cell_idem (v : Value) :
    to_numeric_cell (to_numeric_cell v) = to_numeric_cell v := by
  rcases isNumOrMissing_to_numeric_cell v with ⟨q, hq⟩ | hq <;> rw [hq] <;> rfl

theorem surgeCol_not_mem_NUM_COLS : surgeCol ∉ NUM_COLS := by decide

theorem coerce_types_cols (t : Table) : (coerce_types t).cols = t.cols := by
  unfold coerce_types
  split
  · split
    · rw [mapCol_cols, coerceNum_cols]
    · rw [mapCol_cols, coerceNum_cols]
  · exact coerceNum_cols t

theorem coerce_types_rows (t : Table) :
    (coerce_types t).rows =
      t.rows.map (fun r => surgeStep t (rowFold t.cols to_numeric_cell NUM_COLS r)) := by
  unfold coerce_types surgeStep
  simp only [coerceNum_cols]
  by_cases hs : surgeCol ∈ t.cols
  · simp only [hs, if_true]
    by_cases ht : isTextualCol (coerceNum t) surgeCol
    · simp only [ht, if_true, mapCol_rows, coerceNum_cols, coerceNum_rows, List.map_map,
        hs]
      rfl
    · simp only [ht, if_false, Bool.false_eq_true, mapCol_rows, coerceNum_cols,
        coerceNum_rows, List.map_map, hs, if_true]
      rfl
  · simp only [hs, if_false, coerceNum_rows]

/-! ## The row filter -/

theorem filterCol_cols (t : Table) (c : Str) (p : Value → Bool) :
    (filterCol t c p).cols = t.cols := by
  unfold filterCol
  split <;> rfl

theorem mem_filterCol {t : Table} {c : Str} {p : Value → Bool} {r : List Value} :
    r ∈ (filterCol t c p).rows ↔
      r ∈ t.rows ∧ (c ∈ t.cols → p (cellAt t.cols r c) = true) := by
  unfold filterCol
  by_cases h : c ∈ t.cols
  · simp [h, List.mem_filter]
  · simp [h]

theorem foldl_filterCol_cols (p : Value → Bool) (L : List Str) (t : Table) :
    (L.foldl (fun d m => filterCol d m p) t).cols = t.cols := by
  induction L generalizing t with
  | nil => rfl
  | cons c L ih => rw [List.foldl_cons, ih, filterCol_cols]

theorem mem_foldl_filterCol {p : Value → Bool} :
    ∀ (L : List Str) (t : Table) (r : List Value),
      r ∈ (L.foldl (fun d m => filterCol d m p) t).rows ↔
        r ∈ t.rows ∧ ∀ c ∈ L, c ∈ t.cols → p (cellAt t.cols r c) = true
  | [], t, r => by simp
  | c0 :: L, t, r => by
    rw [List.foldl_cons, mem_foldl_filterCol L (filterCol t c0 p) r, filterCol_cols,
      mem_filterCol, List.forall_mem_cons]
    tauto

theorem clean_rows_eq (t : Table) :
    clean_rows t =
      filterCol
        (filterCol
          (MONEY_COLS.foldl (fun d m => filterCol d m nonnegPred)
            (filterCol
              (filterCol (filterCol t "trip_duration_sec".data posPred)
                "trip_duration_min".data posPred)
              "distance_traveled_km".data posPred))
          "num_of_passengers".data atLeastOnePred)
        "kph".data kphPred := rfl

theorem clean_rows_cols (t : Table) : (clean_rows t).cols = t.cols := by
  rw [clean_rows_eq, filterCol_cols, filterCol_cols, foldl_filterCol_cols,
    filterCol_cols, filterCol_cols, filterCol_cols]

theorem rulePred_sec : rulePred "trip_duration_sec".data = posPred := by
  unfold rulePred
  rw [if_pos (by decide)]

theorem rulePred_min : rulePred "trip_duration_min".data = posPred := by
  unfold rulePred
  rw [if_pos (by decide)]

theorem rulePred_dist : rulePred "distance_traveled_km".data = posPred := by
  unfold rulePred
  rw [if_pos (by decide)]

theorem rulePred_money {c : Str} (h : c ∈ MONEY_COLS) : rulePred c = nonnegPred := by
  unfold rulePred
  have h1 : ¬(c = "trip_duration_sec".data ∨ c = "trip_duration_min".data ∨
      c = "distance_traveled_km".data) := by
    rintro (rfl | rfl | rfl) <;> revert h <;> decide
  rw [if_neg h1, if_pos h]

theorem rulePred_pass : rulePred "num_of_passengers".data = atLeastOnePred := by
  unfold rulePred
  rw [if_neg (by decide), if_neg (by decide), if_pos (by decide)]

theorem rulePred_kph : rulePred "kph".data = kphPred := by
  unfold rulePred
  rw [if_neg (by decide), if_neg (by decide), if_neg (by decide), if_pos (by decide)]

theorem rulesOk_iff (t : Table) (r : List Value) :
    (∀ c ∈ RULE_COLS, c ∈ t.cols → rulePred c (cellAt t.cols r c) = true) ↔
      (("trip_duration_sec".data ∈ t.cols →
          posPred (cellAt t.cols r "trip_duration_sec".data) = true) ∧
       ("trip_duration_min".data ∈ t.cols →
          posPred (cellAt t.cols r "trip_duration_min".data) = true) ∧
       ("distance_traveled_km".data ∈ t.cols →
          posPred (cellAt t.cols r "distance_traveled_km".data) = true) ∧
       (∀ c ∈ MONEY_COLS, c ∈ t.cols → nonnegPred (cellAt t.cols r c) = true) ∧
       ("num_of_passengers".data ∈ t.cols →
          atLeastOnePred (cellAt t.cols r "num_of_passengers".data) = true) ∧
       ("kph".data ∈ t.cols → kphPred (cellAt t.cols r "kph".data) = true)) := by
  constructor
  · intro h
    refine ⟨fun hm => ?_, fun hm => ?_, fun hm => ?_, fun c hc hcc => ?_, fun hm => ?_,
      fun hm => ?_⟩
    · have h0 := h _ (by decide) hm
      rwa [rulePred_sec] at h0
    · have h0 := h _ (by decide) hm
      rwa [rulePred_min] at h0
    · have h0 := h _ (by decide) hm
      rwa [rulePred_dist] at h0
    · have hc2 : c ∈ RULE_COLS := by
        unfold RULE_COLS
        exact List.mem_append.2 (Or.inl (List.mem_append.2 (Or.inr hc)))
      have h0 := h _ hc2 hcc
      rwa [rulePred_money hc] at h0
    · have h0 := h _ (by decide) hm
      rwa [rulePred_pass] at h0
    · have h0 := h _ (by decide) hm
      rwa [rulePred_kph] at h0
  · rintro ⟨h1, h2, h3, h4, h5, h6⟩ c hc hcc
    have hc2 : c = "trip_duration_sec".data ∨ c = "trip_duration_min".data ∨
        c = "distance_traveled_km".data ∨ c ∈ MONEY_COLS ∨
        c = "num_of_passengers".data ∨ c = "kph".data := by
      unfold RULE_COLS at hc
      rcases List.mem_append.1 hc with h | h
      · rcases List.mem_append.1 h with h | h
        · simp only [List.mem_cons, List.not_mem_nil, or_false] at h
          rcases h with h | h | h
          · exact Or.inl h
          · exact Or.inr (Or.inl h)
          · exact Or.inr (Or.inr (Or.inl h))
        · exact Or.inr (Or.inr (Or.inr (Or.inl h)))
      · simp only [List.mem_cons, List.not_mem_nil, or_false] at h
        rcases h with h | h
        · exact Or.inr (Or.inr (Or.inr (Or.inr (Or.inl h))))
        · exact Or.inr (Or.inr (Or.inr (Or.inr (Or.inr h))))
    rcases hc2 with rfl | rfl | rfl | hmon | rfl | rfl
    · rw [rulePred_sec]
      exact h1 hcc
    · rw [rulePred_min]
      exact h2 hcc
    · rw [rulePred_dist]
      exact h3 hcc
    · rw [rulePred_money hmon]
      exact h4 c hmon hcc
    · rw [rulePred_pass]
      exact h5 hcc
    · rw [rulePred_kph]
      exact h6 hcc

theorem mem_clean_rows {t : Table} {r : List Value} :
    r ∈ (clean_rows t).rows ↔
      r ∈ t.rows ∧ ∀ c ∈ RULE_COLS, c ∈ t.cols → rulePred c (cellAt t.cols r c) = true := by
  rw [clean_rows_eq]
  simp only [mem_filterCol, mem_foldl_filterCol, filterCol_cols, foldl_filterCol_cols,
    rulesOk_iff]
  tauto

theorem posPred_iff (v : Value) : posPred v = true ↔ isPos v := by
  cases v <;> simp [posPred, numOr0, isPos]

theorem atLeastOnePred_iff (v : Value) :
    atLeastOnePred v = true ↔ ∃ q, v = Value.num q ∧ 1 ≤ q := by
  cases v <;> simp [atLeastOnePred, numOr0]

theorem kphPred_iff (v : Value) :
    kphPred v = true ↔ ∃ q, v = Value.num q ∧ 0 < q ∧ q ≤ 160 := by
  cases v <;> simp [kphPred, posPred, leNoFill, numOr0]

theorem nonnegPred_num (q : ℚ) : nonnegPred (Value.num q) = true ↔ 0 ≤ q := by
  simp [nonnegPred, numOr0]

theorem nonnegPred_missing : nonnegPred Value.missing = true := by
  simp [nonnegPred, numOr0]

theorem posPred_missing : posPred Value.missing = false := by
  simp [posPred, numOr0]

theorem atLeastOnePred_missing : atLeastOnePred Value.missing = false := by
  simp [atLeastOnePred, numOr0]

theorem kphPred_missing : kphPred Value.missing = false := by
  simp [kphPred, posPred, numOr0]

/-! ## The deduplicator -/

theorem mem_of_mem_dropDup (cols key : List Str) :
    ∀ (seen : List (List Value)) (rs : List (List Value)) (r : List Value),
      r ∈ dropDup cols key seen rs → r ∈ rs
  | _, [], r, h => by simp [dropDup] at h
  | seen, r0 :: rs, r, h => by
    by_cases hk : keyOf cols key r0 ∈ seen
    · simp only [dropDup, hk, if_true] at h
      exact List.mem_cons_of_mem _ (mem_of_mem_dropDup cols key seen rs r h)
    · simp only [dropDup, hk, if_false] at h
      rcases List.mem_cons.1 h with h1 | h1
      · exact h1 ▸ List.mem_cons_self _ _
      · exact List.mem_cons_of_mem _ (mem_of_mem_dropDup cols key _ rs r h1)

theorem dropDup_not_mem_seen (cols key : List Str) :
    ∀ (seen : List (List Value)) (rs : List (List Value)) (r : List Value),
      r ∈ dropDup cols key seen rs → keyOf cols key r ∉ seen
  | _, [], r, h => by simp [dropDup] at h
  | seen, r0 :: rs, r, h => by
    by_cases hk : keyOf cols key r0 ∈ seen
    · simp only [dropDup, hk, if_true] at h
      exact dropDup_not_mem_seen cols key seen rs r h
    · simp only [dropDup, hk, if_false] at h
      rcases List.mem_cons.1 h with h1 | h1
      · exact h1 ▸ hk
      · have h2 := dropDup_not_mem_seen cols key _ rs r h1
        exact fun hm => h2 (List.mem_cons_of_mem _ hm)

theorem dropDup_pairwise (cols key : List Str) :
    ∀ (seen : List (List Value)) (rs : List (List Value)),
      (dropDup cols key seen rs).Pairwise
        (fun a b => keyOf cols key a ≠ keyOf cols key b)
  | _, [] => by simp [dropDup]
  | seen, r0 :: rs => by
    by_cases hk : keyOf cols key r0 ∈ seen
    · simp only [dropDup, hk, if_true]
      exact dropDup_pairwise cols key seen rs
    · simp only [dropDup, hk, if_false]
      refine List.Pairwise.cons (fun b hb heq => ?_) (dropDup_pairwise cols key _ rs)
      have h2 := dropDup_not_mem_seen cols key _ rs b hb
      exact h2 (heq ▸ List.mem_cons_self _ _)

theorem dupCount_add_length_dropDup (cols key : List Str) :
    ∀ (seen : List (List Value)) (rs : List (List Value)),
      dupCount cols key seen rs + (dropDup cols key seen rs).length = rs.length
  | _, [] => by simp [dropDup, dupCount]
  | seen, r0 :: rs => by
    by_cases hk : keyOf cols key r0 ∈ seen
    · simp only [dropDup, dupCount, hk, if_true, List.length_cons]
      have := dupCount_add_length_dropDup cols key seen rs
      omega
    · simp only [dropDup, dupCount, hk, if_false, List.length_cons]
      have := dupCount_add_length_dropDup cols key (keyOf cols key r0 :: seen) rs
      omega

theorem drop_duplicates_cols (t : Table) : (drop_duplicates_by_key t).1.cols = t.cols := by
  unfold drop_duplicates_by_key
  split <;> rfl

theorem mem_drop_duplicates (t : Table) (r : List Value)
    (h : r ∈ (drop_duplicates_by_key t).1.rows) : r ∈ t.rows := by
  unfold drop_duplicates_by_key at h
  split at h
  · exact h
  · exact mem_of_mem_dropDup _ _ _ _ _ h

/-! ## The derived-field recomputer -/

theorem setCol_cols (t : Table) (c : Str) (f : List Value → Value) :
    (setCol t c f).cols = if c ∈ t.cols then t.cols else t.cols ++ [c] := by
  unfold setCol
  by_cases h : c ∈ t.cols <;> simp [h]

theorem setCol_rows (t : Table) (c : Str) (f : List Value → Value) :
    (setCol t c f).rows = t.rows.map (setColRow t c f) := by
  unfold setCol setColRow
  by_cases h : c ∈ t.cols <;> simp [h]

theorem mem_cols_setCol {t : Table} {c c' : Str} (h : c' ∈ t.cols) (f : List Value → Value) :
    c' ∈ (setCol t c f).cols := by
  rw [setCol_cols]
  split
  · exact h
  · exact List.mem_append.2 (Or.inl h)

theorem cellAt_setColRow_self {t : Table} {c : Str} {f : List Value → Value} {r : List Value}
    (hr : r.length = t.cols.length) :
    cellAt (setCol t c f).cols (setColRow t c f r) c = f r := by
  rw [setCol_cols]
  unfold setColRow
  by_cases h : c ∈ t.cols
  · simp only [h, if_true]
    exact cellAt_set_self_of_lt (by rw [hr]; exact colIdx_lt_length h) (f r)
  · simp only [h, if_false]
    unfold cellAt
    rw [colIdx_append_of_not_mem h]
    have h0 : colIdx c [c] = 0 := by simp [colIdx_cons]
    rw [h0, Nat.add_zero, ← hr, List.getElem?_concat_length]
    rfl

theorem cellAt_setColRow_ne {t : Table} {c c' : Str} {f : List Value → Value} {r : List Value}
    (hr : r.length = t.cols.length) (hc' : c' ∈ t.cols) (hne : c' ≠ c) :
    cellAt (setCol t c f).cols (setColRow t c f r) c' = cellAt t.cols r c' := by
  rw [setCol_cols]
  unfold setColRow
  by_cases h : c ∈ t.cols
  · simp only [h, if_true]
    exact cellAt_set_ne h hc' (Ne.symm hne) r (f r)
  · simp only [h, if_false]
    unfold cellAt
    rw [colIdx_append_of_mem hc']
    rw [List.getElem?_append_left (by rw [hr]; exact colIdx_lt_length hc')]

theorem rect_setCol {t : Table} (ht : Rect t) (c : Str) (f : List Value → Value) :
    Rect (setCol t c f) := by
  intro r hr
  rw [setCol_rows] at hr
  rcases List.mem_map.1 hr with ⟨r0, hr0, rfl⟩
  rw [setCol_cols]
  unfold setColRow
  by_cases h : c ∈ t.cols <;> simp [h, ht r0 hr0]

theorem recompute_eq_of_min_mem (t : Table)
    (hmin : "trip_duration_min".data ∈ t.cols) :
    recompute_duration_fields t =
      setCol t "trip_duration_hr".data
        (fun r => round6V (divV (cellAt t.cols r "trip_duration_min".data) 60)) := by
  have hA : ¬("trip_duration_min".data ∉ t.cols ∧ "trip_duration_sec".data ∈ t.cols) :=
    fun h => h.1 hmin
  simp only [recompute_duration_fields, if_neg hA, if_pos hmin]

theorem recompute_eq_of_sec_only (t : Table)
    (hmin : "trip_duration_min".data ∉ t.cols) (hsec : "trip_duration_sec".data ∈ t.cols) :
    recompute_duration_fields t =
      setCol (setCol t "trip_duration_min".data
          (fun r => divV (cellAt t.cols r "trip_duration_sec".data) 60))
        "trip_duration_hr".data
        (fun r => round6V (divV (cellAt
            (setCol t "trip_duration_min".data
              (fun r => divV (cellAt t.cols r "trip_duration_sec".data) 60)).cols
            r "trip_duration_min".data) 60)) := by
  have hA : "trip_duration_min".data ∉ t.cols ∧ "trip_duration_sec".data ∈ t.cols :=
    ⟨hmin, hsec⟩
  have hmem : "trip_duration_min".data ∈ (setCol t "trip_duration_min".data
      (fun r => divV (cellAt t.cols r "trip_duration_sec".data) 60)).cols := by
    rw [setCol_cols, if_neg hmin]
    exact List.mem_append.2 (Or.inr (List.mem_cons_self _ _))
  simp only [recompute_duration_fields, if_pos hA, if_pos hmem]

theorem recompute_eq_of_no_duration (t : Table)
    (hmin : "trip_duration_min".data ∉ t.cols) (hsec : "trip_duration_sec".data ∉ t.cols) :
    recompute_duration_fields t = t := by
  have hA : ¬("trip_duration_min".data ∉ t.cols ∧ "trip_duration_sec".data ∈ t.cols) :=
    fun h => hsec h.2
  simp only [recompute_duration_fields, if_neg hA, if_neg hmin, if_neg hsec]

theorem rect_recompute {t : Table} (ht : Rect t) : Rect (recompute_duration_fields t) := by
  by_cases hmin : "trip_duration_min".data ∈ t.cols
  · rw [recompute_eq_of_min_mem t hmin]
    exact rect_setCol ht _ _
  · by_cases hsec : "trip_duration_sec".data ∈ t.cols
    · rw [recompute_eq_of_sec_only t hmin hsec]
      exact rect_setCol (rect_setCol ht _ _) _ _
    · rw [recompute_eq_of_no_duration t hmin hsec]
      exact ht

/-! ## Rectangularity through the early stages -/

theorem rect_normalize {t : Table} (h : Rect t) : Rect (normalize_columns t) := by
  intro r hr
  simp only [normalize_columns, List.length_map] at hr ⊢
  exact h r hr

theorem rect_coerce_types {t : Table} (h : Rect t) : Rect (coerce_types t) := by
  intro r hr
  rw [coerce_types_rows] at hr
  rcases List.mem_map.1 hr with ⟨r0, hr0, rfl⟩
  rw [coerce_types_cols]
  unfold surgeStep
  by_cases hs : surgeCol ∈ t.cols
  · simp only [hs, if_true]
    cases htx : isTextualCol (coerceNum t) surgeCol <;>
      simp [htx, length_setRowCol, length_rowFold, h r0 hr0]
  · simp only [hs, if_false, length_rowFold]
    exact h r0 hr0

theorem rect_clean_rows {t : Table} (h : Rect t) : Rect (clean_rows t) := by
  intro r hr
  rw [clean_rows_cols]
  exact h r (mem_clean_rows.1 hr).1

/-! ## Idempotence of the column normalizer -/

theorem char_eq_of_toNat_eq {a b : Char} (h : a.toNat = b.toNat) : a = b :=
  Char.ext (UInt32.ext h)

theorem toNat_ofNat_valid {n : ℕ} (h : n.isValidChar) : (Char.ofNat n).toNat = n := by
  rw [Char.ofNat, dif_pos h]
  simp [Char.ofNatAux, Char.toNat, UInt32.toNat, BitVec.toNat_ofNatLt]

theorem toLower_toNat (c : Char) :
    (Char.toLower c).toNat =
      if c.toNat ≥ 65 ∧ c.toNat ≤ 90 then c.toNat + 32 else c.toNat := by
  unfold Char.toLower
  by_cases h : c.toNat ≥ 65 ∧ c.toNat ≤ 90
  · rw [if_pos h, if_pos h]
    exact toNat_ofNat_valid (Or.inl (by omega))
  · rw [if_neg h, if_neg h]

theorem toLower_idem (c : Char) : (Char.toLower c).toLower = Char.toLower c := by
  apply char_eq_of_toNat_eq
  rw [toLower_toNat, toLower_toNat]
  split_ifs <;> omega

theorem isWhitespace_iff_toNat (c : Char) :
    c.isWhitespace = true ↔ c.toNat = 32 ∨ c.toNat = 9 ∨ c.toNat = 13 ∨ c.toNat = 10 := by
  unfold Char.isWhitespace
  simp only [Bool.or_eq_true, decide_eq_true_eq]
  constructor
  · rintro (((rfl | rfl) | rfl) | rfl) <;> decide
  · rintro (h | h | h | h)
    · have hc : c = ' ' := char_eq_of_toNat_eq (by rw [h]; decide)
      simp [hc]
    · have hc : c = '\t' := char_eq_of_toNat_eq (by rw [h]; decide)
      simp [hc]
    · have hc : c = '\r' := char_eq_of_toNat_eq (by rw [h]; decide)
      simp [hc]
    · have hc : c = '\n' := char_eq_of_toNat_eq (by rw [h]; decide)
      simp [hc]

theorem isWhitespace_toLower (c : Char) :
    (Char.toLower c).isWhitespace = c.isWhitespace := by
  by_cases h : c.toNat ≥ 65 ∧ c.toNat ≤ 90
  · have h1 : (Char.toLower c).toNat = c.toNat + 32 := by rw [toLower_toNat, if_pos h]
    have hc : c.isWhitespace = false := by
      by_contra hcc
      rw [Bool.not_eq_false] at hcc
      have h2 := (isWhitespace_iff_toNat c).1 hcc
      omega
    have htl : (Char.toLower c).isWhitespace = false := by
      by_contra hcc
      rw [Bool.not_eq_false] at hcc
      have h2 := (isWhitespace_iff_toNat _).1 hcc
      omega
    rw [hc, htl]
  · have h1 : Char.toLower c = c := by
      unfold Char.toLower
      rw [if_neg h]
    rw [h1]

theorem canon_eq_map (s : Str) : canon s = (stripStr s).map canonChar := by
  unfold canon replaceChar lowerStr
  rw [List.map_map, List.map_map]
  apply List.map_congr_left
  intro a _
  simp only [Function.comp_apply, canonChar]
  by_cases h1 : Char.toLower a = ' '
  · simp [h1]
  · by_cases h2 : Char.toLower a = '-'
    · simp [h1, h2]
    · simp [h1, h2]

theorem canonChar_idem (c : Char) : canonChar (canonChar c) = canonChar c := by
  have hv : canonChar c = '_' ∨
      (canonChar c = Char.toLower c ∧ Char.toLower c ≠ ' ' ∧ Char.toLower c ≠ '-') := by
    unfold canonChar
    by_cases h1 : Char.toLower c = ' '
    · simp [h1]
    · by_cases h2 : Char.toLower c = '-'
      · simp [h1, h2]
      · simp [h1, h2]
  rcases hv with h | ⟨h, h1, h2⟩
  · rw [h]
    decide
  · rw [h]
    unfold canonChar
    rw [toLower_idem, if_neg h1, if_neg h2]

theorem canonChar_not_ws {c : Char} (h : c.isWhitespace = false) :
    (canonChar c).isWhitespace = false := by
  unfold canonChar
  by_cases h1 : Char.toLower c = ' '
  · rw [if_pos h1]
    decide
  · by_cases h2 : Char.toLower c = '-'
    · rw [if_neg h1, if_pos h2]
      decide
    · rw [if_neg h1, if_neg h2, isWhitespace_toLower]
      exact h

theorem head_stripStr_not_ws {s : Str} {c : Char} (h : (stripStr s).head? = some c) :
    c.isWhitespace = false := by
  have hu : stripStr s <+: s.dropWhile Char.isWhitespace := by
    unfold stripStr
    have h1 : (s.dropWhile Char.isWhitespace).reverse.dropWhile Char.isWhitespace <:+
        (s.dropWhile Char.isWhitespace).reverse := List.dropWhile_suffix _
    have h2 := h1.reverse
    rwa [List.reverse_reverse] at h2
  rcases hu with ⟨t, ht⟩
  have h3 : (s.dropWhile Char.isWhitespace).head? = some c := by
    rw [← ht, List.head?_append, h]
    rfl
  have h4 := List.head?_dropWhile_not Char.isWhitespace s
  rw [h3] at h4
  exact h4

theorem getLast_stripStr_not_ws {s : Str} {c : Char} (h : (stripStr s).getLast? = some c) :
    c.isWhitespace = false := by
  unfold stripStr at h
  rw [List.getLast?_reverse] at h
  have h4 := List.head?_dropWhile_not Char.isWhitespace (s.dropWhile Char.isWhitespace).reverse
  rw [h] at h4
  exact h4

theorem stripStr_eq_self {s : Str}
    (h1 : ∀ c, s.head? = some c → c.isWhitespace = false)
    (h2 : ∀ c, s.getLast? = some c → c.isWhitespace = false) :
    stripStr s = s := by
  unfold stripStr
  have e1 : s.dropWhile Char.isWhitespace = s := by
    rw [List.dropWhile_eq_self_iff]
    intro hl hp
    have hh : s.head? = some (s.get ⟨0, hl⟩) := by
      rw [List.head?_eq_getElem?, List.getElem?_eq_getElem hl, List.get_eq_getElem]
    have hw := h1 _ hh
    simp only [List.get_eq_getElem] at hw hp
    rw [hw] at hp
    exact Bool.false_ne_true hp
  rw [e1]
  have e2 : s.reverse.dropWhile Char.isWhitespace = s.reverse := by
    rw [List.dropWhile_eq_self_iff]
    intro hl hp
    have hh : s.reverse.head? = some (s.reverse.get ⟨0, hl⟩) := by
      rw [List.head?_eq_getElem?, List.getElem?_eq_getElem hl, List.get_eq_getElem]
    rw [List.head?_reverse] at hh
    have hw := h2 _ hh
    simp only [List.get_eq_getElem, List.getElem_reverse] at hw hp
    rw [hw] at hp
    exact Bool.false_ne_true hp
  rw [e2, List.reverse_reverse]

theorem stripStr_canon (s : Str) : stripStr (canon s) = canon s := by
  apply stripStr_eq_self
  · intro c hc
    rw [canon_eq_map, List.head?_map] at hc
    cases hh : (stripStr s).head? with
    | none =>
      rw [hh] at hc
      simp at hc
    | some c0 =>
      rw [hh] at hc
      have hcc : c = canonChar c0 := by
        simp only [Option.map_some'] at hc
        exact (Option.some_inj.1 hc).symm
      rw [hcc]
      exact canonChar_not_ws (head_stripStr_not_ws hh)
  · intro c hc
    rw [canon_eq_map, List.getLast?_map] at hc
    cases hh : (stripStr s).getLast? with
    | none =>
      rw [hh] at hc
      simp at hc
    | some c0 =>
      rw [hh] at hc
      have hcc : c = canonChar c0 := by
        simp only [Option.map_some'] at hc
        exact (Option.some_inj.1 hc).symm
      rw [hcc]
      exact canonChar_not_ws (getLast_stripStr_not_ws hh)

theorem canon_idem (s : Str) : canon (canon s) = canon s := by
  calc canon (canon s) = (stripStr (canon s)).map canonChar := canon_eq_map _
    _ = (canon s).map canonChar := by rw [stripStr_canon]
    _ = ((stripStr s).map canonChar).map canonChar := by rw [canon_eq_map s]
    _ = (stripStr s).map (canonChar ∘ canonChar) := List.map_map _ _ _
    _ = (stripStr s).map canonChar := List.map_congr_left (fun a _ => canonChar_idem a)
    _ = canon s := (canon_eq_map s).symm

/-! ## Claim-level support lemmas -/

theorem cellAt_surgeStep_ne {t : Table} {r : List Value} {c : Str}
    (hc : c ∈ t.cols) (hne : c ≠ surgeCol) :
    cellAt t.cols (surgeStep t r) c = cellAt t.cols r c := by
  unfold surgeStep
  by_cases hs : surgeCol ∈ t.cols
  · cases htx : isTextualCol (coerceNum t) surgeCol <;>
      simp [hs, htx, cellAt_setRowCol_ne hs hc (Ne.symm hne)]
  · simp [hs]

theorem cellAt_mem_coerce_isNumOrMissing {t : Table} {r : List Value}
    (hr : r ∈ (coerce_types t).rows) {c : Str} (hc : c ∈ NUM_COLS) (hcc : c ∈ t.cols) :
    isNumOrMissing (cellAt t.cols r c) := by
  rw [coerce_types_rows] at hr
  rcases List.mem_map.1 hr with ⟨r0, _, rfl⟩
  rw [cellAt_surgeStep_ne hcc (fun he => surgeCol_not_mem_NUM_COLS (he ▸ hc))]
  rw [cellAt_rowFold_mem to_numeric_cell_missing to_numeric_cell_idem hcc NUM_COLS hc r0]
  exact isNumOrMissing_to_numeric_cell _

theorem mem_setCol_iff {t : Table} {c c' : Str} {f : List Value → Value} :
    c' ∈ (setCol t c f).cols ↔ c' ∈ t.cols ∨ c' = c := by
  rw [setCol_cols]
  split
  · next h =>
    constructor
    · exact Or.inl
    · rintro (h1 | rfl)
      · exact h1
      · exact h
  · next h => simp [List.mem_append]

theorem mem_setCol_self (t : Table) (c : Str) (f : List Value → Value) :
    c ∈ (setCol t c f).cols :=
  mem_setCol_iff.2 (Or.inr rfl)

theorem money_subset_num : ∀ m ∈ MONEY_COLS, m ∈ NUM_COLS := by decide

theorem money_subset_rule : ∀ m ∈ MONEY_COLS, m ∈ RULE_COLS := by decide

theorem money_ne_min_hr : ∀ m ∈ MONEY_COLS,
    m ≠ "trip_duration_min".data ∧ m ≠ "trip_duration_hr".data := by decide

theorem getD_map_of_lt {α β : Type} (f : α → β) {l : List α} {i : ℕ}
    (hi : i < l.length) (a : α) (b : β) : (l.map f).getD i b = f (l.getD i a) := by
  rw [List.getD_eq_getElem _ _ (by simpa using hi), List.getD_eq_getElem _ _ hi,
    List.getElem_map]

theorem filterCol_of_not_mem {t : Table} {c : Str} (p : Value → Bool) (h : c ∉ t.cols) :
    filterCol t c p = t := by
  unfold filterCol
  rw [if_neg h]

theorem foldl_filterCol_of_not_mem {p : Value → Bool} :
    ∀ (L : List Str) (t : Table), (∀ c ∈ L, c ∉ t.cols) →
      L.foldl (fun d m => filterCol d m p) t = t
  | [], _, _ => rfl
  | c :: L, t, h => by
    rw [List.foldl_cons, filterCol_of_not_mem p (h c (List.mem_cons_self c L))]
    exact foldl_filterCol_of_not_mem L t (fun c2 hc2 => h c2 (List.mem_cons_of_mem _ hc2))

theorem divV_divV (v : Value) : divV (divV v 60) 60 = divV v 3600 := by
  cases v with
  | num q =>
    simp only [divV]
    rw [div_div]
    norm_num
  | bool b => rfl
  | str s => rfl
  | missing => rfl

theorem clean_coerce_invariants {t1 : Table} {r : List Value}
    (hr : r ∈ (clean_rows (coerce_types t1)).rows) :
    ("trip_duration_sec".data ∈ t1.cols →
      isPos (cellAt t1.cols r "trip_duration_sec".data)) ∧
    ("trip_duration_min".data ∈ t1.cols →
      isPos (cellAt t1.cols r "trip_duration_min".data)) ∧
    ("distance_traveled_km".data ∈ t1.cols →
      isPos (cellAt t1.cols r "distance_traveled_km".data)) ∧
    (∀ m ∈ MONEY_COLS, m ∈ t1.cols →
      cellAt t1.cols r m = Value.missing ∨
        ∃ q, cellAt t1.cols r m = Value.num q ∧ 0 ≤ q) ∧
    ("num_of_passengers".data ∈ t1.cols →
      ∃ q, cellAt t1.cols r "num_of_passengers".data = Value.num q ∧ 1 ≤ q) ∧
    ("kph".data ∈ t1.cols →
      ∃ q, cellAt t1.cols r "kph".data = Value.num q ∧ 0 < q ∧ q ≤ 160) := by
  have hm := mem_clean_rows.1 hr
  rw [coerce_types_cols] at hm
  obtain ⟨hr2, hrules⟩ := hm
  refine ⟨fun h => ?_, fun h => ?_, fun h => ?_, fun m hm1 hm2 => ?_, fun h => ?_,
    fun h => ?_⟩
  · have h0 := hrules _ (by decide) h
    rw [rulePred_sec] at h0
    exact (posPred_iff _).1 h0
  · have h0 := hrules _ (by decide) h
    rw [rulePred_min] at h0
    exact (posPred_iff _).1 h0
  · have h0 := hrules _ (by decide) h
    rw [rulePred_dist] at h0
    exact (posPred_iff _).1 h0
  · have h0 := hrules _ (money_subset_rule m hm1) hm2
    rw [rulePred_money hm1] at h0
    rcases cellAt_mem_coerce_isNumOrMissing hr2 (money_subset_num m hm1) hm2 with ⟨q, hq⟩ | hq
    · right
      refine ⟨q, hq, ?_⟩
      rw [hq] at h0
      exact (nonnegPred_num q).1 h0
    · exact Or.inl hq
  · have h0 := hrules _ (by decide) h
    rw [rulePred_pass] at h0
    exact (atLeastOnePred_iff _).1 h0
  · have h0 := hrules _ (by decide) h
    rw [rulePred_kph] at h0
    exact (kphPred_iff _).1 h0

set_option maxHeartbeats 1000000 in
theorem pipeline_transfer (t : Table) (hrect : Rect t) :
    ∀ r ∈ (pipeline t).1.rows,
      ∃ r3 ∈ (clean_rows (coerce_types (normalize_columns t))).rows,
        (∀ c, c ≠ "trip_duration_min".data → c ≠ "trip_duration_hr".data →
          ((c ∈ (pipeline t).1.cols ↔ c ∈ (normalize_columns t).cols) ∧
           (c ∈ (normalize_columns t).cols →
             cellAt (pipeline t).1.cols r c = cellAt (normalize_columns t).cols r3 c))) ∧
        ("trip_duration_min".data ∈ (pipeline t).1.cols →
          ("trip_duration_min".data ∈ (normalize_columns t).cols ∧
            cellAt (pipeline t).1.cols r "trip_duration_min".data =
              cellAt (normalize_columns t).cols r3 "trip_duration_min".data) ∨
          ("trip_duration_min".data ∉ (normalize_columns t).cols ∧
            "trip_duration_sec".data ∈ (normalize_columns t).cols ∧
            cellAt (pipeline t).1.cols r "trip_duration_min".data =
              divV (cellAt (normalize_columns t).cols r3 "trip_duration_sec".data) 60)) := by
  intro r hr
  have ht3 : (clean_rows (coerce_types (normalize_columns t))).cols =
      (normalize_columns t).cols := by
    rw [clean_rows_cols, coerce_types_cols]
  have hrect3 : Rect (clean_rows (coerce_types (normalize_columns t))) :=
    rect_clean_rows (rect_coerce_types (rect_normalize hrect))
  have hpipe : pipeline t = drop_duplicates_by_key
      (recompute_duration_fields (clean_rows (coerce_types (normalize_columns t)))) := rfl
  have hout_cols : (pipeline t).1.cols =
      (recompute_duration_fields (clean_rows (coerce_types (normalize_columns t)))).cols := by
    rw [hpipe]
    exact drop_duplicates_cols _
  rw [hpipe] at hr
  have hr4 : r ∈
      (recompute_duration_fields (clean_rows (coerce_types (normalize_columns t)))).rows :=
    mem_drop_duplicates _ r hr
  by_cases hmin : "trip_duration_min".data ∈
      (clean_rows (coerce_types (normalize_columns t))).cols
  · rw [recompute_eq_of_min_mem _ hmin] at hr4 hout_cols
    rw [setCol_rows] at hr4
    rcases List.mem_map.1 hr4 with ⟨r3, hr3, rfl⟩
    have hlen : r3.length = (clean_rows (coerce_types (normalize_columns t))).cols.length :=
      hrect3 r3 hr3
    refine ⟨r3, hr3, ?_, ?_⟩
    · intro c hcmin hchr
      constructor
      · rw [hout_cols, mem_setCol_iff, ht3]
        simp [hchr]
      · intro hc1
        have hc3 : c ∈ (clean_rows (coerce_types (normalize_columns t))).cols := by
          rw [ht3]
          exact hc1
        rw [hout_cols, cellAt_setColRow_ne hlen hc3 hchr, ht3]
    · intro _
      left
      refine ⟨by rw [← ht3]; exact hmin, ?_⟩
      rw [hout_cols, cellAt_setColRow_ne hlen hmin (by decide), ht3]
  · by_cases hsec : "trip_duration_sec".data ∈
        (clean_rows (coerce_types (normalize_columns t))).cols
    · rw [recompute_eq_of_sec_only _ hmin hsec] at hr4 hout_cols
      rw [setCol_rows] at hr4
      rcases List.mem_map.1 hr4 with ⟨r1, hr1, rfl⟩
      rw [setCol_rows] at hr1
      rcases List.mem_map.1 hr1 with ⟨r3, hr3, rfl⟩
      have hlen3 : r3.length =
          (clean_rows (coerce_types (normalize_columns t))).cols.length := hrect3 r3 hr3
      have hrectu : Rect (setCol (clean_rows (coerce_types (normalize_columns t)))
          "trip_duration_min".data
          (fun r => divV (cellAt (clean_rows (coerce_types (normalize_columns t))).cols r
            "trip_duration_sec".data) 60)) := rect_setCol hrect3 _ _
      have hlenu : (setColRow (clean_rows (coerce_types (normalize_columns t)))
            "trip_duration_min".data
            (fun r => divV (cellAt (clean_rows (coerce_types (normalize_columns t))).cols r
              "trip_duration_sec".data) 60) r3).length =
          (setCol (clean_rows (coerce_types (normalize_columns t)))
            "trip_duration_min".data
            (fun r => divV (cellAt (clean_rows (coerce_types (normalize_columns t))).cols r
              "trip_duration_sec".data) 60)).cols.length := by
        apply hrectu
        rw [setCol_rows]
        exact List.mem_map_of_mem _ hr3
      refine ⟨r3, hr3, ?_, ?_⟩
      · intro c hcmin hchr
        constructor
        · rw [hout_cols, mem_setCol_iff, mem_setCol_iff, ht3]
          simp [hcmin, hchr]
        · intro hc1
          have hc3 : c ∈ (clean_rows (coerce_types (normalize_columns t))).cols := by
            rw [ht3]
            exact hc1
          have hcu : c ∈ (setCol (clean_rows (coerce_types (normalize_columns t)))
              "trip_duration_min".data
              (fun r => divV (cellAt (clean_rows (coerce_types (normalize_columns t))).cols r
                "trip_duration_sec".data) 60)).cols := mem_setCol_iff.2 (Or.inl hc3)
          rw [hout_cols, cellAt_setColRow_ne hlenu hcu hchr,
            cellAt_setColRow_ne hlen3 hc3 hcmin, ht3]
      · intro _
        right
        refine ⟨by rw [← ht3]; exact hmin, by rw [← ht3]; exact hsec, ?_⟩
        have hminu : "trip_duration_min".data ∈
            (setCol (clean_rows (coerce_types (normalize_columns t)))
              "trip_duration_min".data
              (fun r => divV (cellAt (clean_rows (coerce_types (normalize_columns t))).cols r
                "trip_duration_sec".data) 60)).cols := mem_setCol_self _ _ _
        rw [hout_cols, cellAt_setColRow_ne hlenu hminu (by decide),
          cellAt_setColRow_self hlen3, ht3]
    · rw [recompute_eq_of_no_duration _ hmin hsec] at hr4 hout_cols
      refine ⟨r, hr4, ?_, ?_⟩
      · intro c _ _
        rw [hout_cols, ht3]
        exact ⟨Iff.rfl, fun _ => rfl⟩
      · intro hminout
        rw [hout_cols] at hminout
        exact absurd hminout hmin

/-! ## The claims -/

/-- C9: Column normalization is idempotent: normalizing twice yields exactly
the table produced by normalizing once, row content is untouched, and a
table whose column names are already canonical keeps its column set. -/
theorem c9_normalize_idempotent (t : Table) :
    normalize_columns (normalize_columns t) = normalize_columns t ∧
    (normalize_columns t).rows = t.rows ∧
    (t.cols.map canon = t.cols → normalize_columns t = t) := by
  refine ⟨?_, rfl, fun h => ?_⟩
  · have h2 : (t.cols.map canon).map canon = t.cols.map canon := by
      rw [List.map_map]
      exact List.map_congr_left (fun a _ => canon_idem a)
    exact congrArg (fun cs => Table.mk cs t.rows) h2
  · exact congrArg (fun cs => Table.mk cs t.rows) h

/-- C2: Deduplication uses exactly the present composite-key columns; with a
non-empty key every pair of distinct output rows differs on the key
projection (missing compared equal to missing), the reported count is the
pre-dedup row count minus the output row count, and with no key column
present the stage is a no-op reporting 0. -/
theorem c2_dedup_correct (t : Table) :
    (drop_duplicates_by_key t).2.2 = COMPOSITE_KEY.filter (fun c => c ∈ t.cols) ∧
    ((drop_duplicates_by_key t).2.2 ≠ [] →
      (drop_duplicates_by_key t).1.rows.Pairwise (fun a b =>
        keyOf t.cols (drop_duplicates_by_key t).2.2 a ≠
          keyOf t.cols (drop_duplicates_by_key t).2.2 b)) ∧
    (drop_duplicates_by_key t).2.1 =
      t.rows.length - (drop_duplicates_by_key t).1.rows.length ∧
    ((drop_duplicates_by_key t).2.2 = [] →
      (drop_duplicates_by_key t).1 = t ∧ (drop_duplicates_by_key t).2.1 = 0) := by
  unfold drop_duplicates_by_key
  by_cases hk : COMPOSITE_KEY.filter (fun c => c ∈ t.cols) = []
  · rw [if_pos hk]
    refine ⟨hk.symm, fun hne => absurd rfl hne, by simp, fun _ => ⟨rfl, rfl⟩⟩
  · rw [if_neg hk]
    refine ⟨rfl, fun _ => dropDup_pairwise _ _ [] t.rows, ?_, fun he => absurd he hk⟩
    dsimp only
    have h := dupCount_add_length_dropDup t.cols
      (COMPOSITE_KEY.filter (fun c => c ∈ t.cols)) [] t.rows
    omega

/-- C8: Membership in the filtered table is exactly "membership in the input
and satisfaction of the rule of every rule column that is present", so a rule
whose column is absent constrains nothing; in particular a table containing
none of the rule columns passes the filter unchanged. -/
theorem c8_absent_column_rules_skip (t : Table) (r : List Value) :
    (r ∈ (clean_rows t).rows ↔
      r ∈ t.rows ∧ ∀ c ∈ RULE_COLS, c ∈ t.cols → rulePred c (cellAt t.cols r c) = true) ∧
    ((∀ c ∈ RULE_COLS, c ∉ t.cols) → clean_rows t = t) := by
  refine ⟨mem_clean_rows, fun h => ?_⟩
  have e1 : filterCol t "trip_duration_sec".data posPred = t :=
    filterCol_of_not_mem _ (h _ (by decide))
  have e2 : filterCol t "trip_duration_min".data posPred = t :=
    filterCol_of_not_mem _ (h _ (by decide))
  have e3 : filterCol t "distance_traveled_km".data posPred = t :=
    filterCol_of_not_mem _ (h _ (by decide))
  have e4 : MONEY_COLS.foldl (fun d m => filterCol d m nonnegPred) t = t :=
    foldl_filterCol_of_not_mem MONEY_COLS t (fun c hc => h c (money_subset_rule c hc))
  have e5 : filterCol t "num_of_passengers".data atLeastOnePred = t :=
    filterCol_of_not_mem _ (h _ (by decide))
  have e6 : filterCol t "kph".data kphPred = t :=
    filterCol_of_not_mem _ (h _ (by decide))
  rw [clean_rows_eq, e1, e2, e3, e4, e5, e6]

/-- C7: In the row filter, a missing value in a present rule column behaves
as 0: missing duration, distance, speed or passenger count makes the row be
dropped, while missing monetary values alone never drop a row that passes
every other applicable rule. -/
theorem c7_missing_is_violating (t : Table) (r : List Value) (hr : r ∈ t.rows) :
    (("trip_duration_sec".data ∈ t.cols →
        cellAt t.cols r "trip_duration_sec".data = Value.missing →
        r ∉ (clean_rows t).rows) ∧
     ("trip_duration_min".data ∈ t.cols →
        cellAt t.cols r "trip_duration_min".data = Value.missing →
        r ∉ (clean_rows t).rows) ∧
     ("distance_traveled_km".data ∈ t.cols →
        cellAt t.cols r "distance_traveled_km".data = Value.missing →
        r ∉ (clean_rows t).rows) ∧
     ("num_of_passengers".data ∈ t.cols →
        cellAt t.cols r "num_of_passengers".data = Value.missing →
        r ∉ (clean_rows t).rows) ∧
     ("kph".data ∈ t.cols →
        cellAt t.cols r "kph".data = Value.missing →
        r ∉ (clean_rows t).rows)) ∧
    ((∀ c ∈ RULE_COLS, c ∈ t.cols → c ∉ MONEY_COLS →
        rulePred c (cellAt t.cols r c) = true) →
      (∀ m ∈ MONEY_COLS, m ∈ t.cols → cellAt t.cols r m = Value.missing) →
      r ∈ (clean_rows t).rows) := by
  constructor
  · refine ⟨fun hc hm hin => ?_, fun hc hm hin => ?_, fun hc hm hin => ?_,
      fun hc hm hin => ?_, fun hc hm hin => ?_⟩
    · have h0 := (mem_clean_rows.1 hin).2 _ (by decide) hc
      rw [rulePred_sec, hm, posPred_missing] at h0
      exact Bool.false_ne_true h0
    · have h0 := (mem_clean_rows.1 hin).2 _ (by decide) hc
      rw [rulePred_min, hm, posPred_missing] at h0
      exact Bool.false_ne_true h0
    · have h0 := (mem_clean_rows.1 hin).2 _ (by decide) hc
      rw [rulePred_dist, hm, posPred_missing] at h0
      exact Bool.false_ne_true h0
    · have h0 := (mem_clean_rows.1 hin).2 _ (by decide) hc
      rw [rulePred_pass, hm, atLeastOnePred_missing] at h0
      exact Bool.false_ne_true h0
    · have h0 := (mem_clean_rows.1 hin).2 _ (by decide) hc
      rw [rulePred_kph, hm, kphPred_missing] at h0
      exact Bool.false_ne_true h0
  · intro hother hmoney
    refine mem_clean_rows.2 ⟨hr, fun c hc hcc => ?_⟩
    by_cases hm : c ∈ MONEY_COLS
    · rw [rulePred_money hm, hmoney c hm hcc]
      exact nonnegPred_missing
    · exact hother c hc hcc hm

/-- C6: The type coercer keeps the column list and the row count (same rows,
same order, none dropped), leaves every cell of a present registry numeric
column as a number or the missing marker, and turns an unparseable string
cell into the missing marker instead of raising or removing the row. -/
theorem c6_coercion_total (t : Table) (i : ℕ) (c : Str)
    (hc : c ∈ NUM_COLS) (hcc : c ∈ t.cols) :
    (coerce_types t).cols = t.cols ∧
    (coerce_types t).rows.length = t.rows.length ∧
    isNumOrMissing (cellAt t.cols ((coerce_types t).rows.getD i []) c) ∧
    (∀ s, cellAt t.cols (t.rows.getD i []) c = Value.str s → parseRat s = none →
      cellAt t.cols ((coerce_types t).rows.getD i []) c = Value.missing) := by
  have hlen : (coerce_types t).rows.length = t.rows.length := by
    rw [coerce_types_rows, List.length_map]
  refine ⟨coerce_types_cols t, hlen, ?_, ?_⟩
  · by_cases hi : i < t.rows.length
    · have hrow : (coerce_types t).rows.getD i [] =
          surgeStep t (rowFold t.cols to_numeric_cell NUM_COLS (t.rows.getD i [])) := by
        rw [coerce_types_rows]
        exact getD_map_of_lt _ hi [] []
      rw [hrow, cellAt_surgeStep_ne hcc (fun he => surgeCol_not_mem_NUM_COLS (he ▸ hc)),
        cellAt_rowFold_mem to_numeric_cell_missing to_numeric_cell_idem hcc NUM_COLS hc _]
      exact isNumOrMissing_to_numeric_cell _
    · have h0 : (coerce_types t).rows.getD i [] = [] :=
        List.getD_eq_default _ _ (by omega)
      rw [h0, cellAt_eq_missing_of_le (Nat.zero_le _)]
      exact Or.inr rfl
  · intro s hs hp
    by_cases hi : i < t.rows.length
    · have hrow : (coerce_types t).rows.getD i [] =
          surgeStep t (rowFold t.cols to_numeric_cell NUM_COLS (t.rows.getD i [])) := by
        rw [coerce_types_rows]
        exact getD_map_of_lt _ hi [] []
      rw [hrow, cellAt_surgeStep_ne hcc (fun he => surgeCol_not_mem_NUM_COLS (he ▸ hc)),
        cellAt_rowFold_mem to_numeric_cell_missing to_numeric_cell_idem hcc NUM_COLS hc _,
        hs]
      simp [to_numeric_cell, hp]
    · rw [List.getD_eq_default _ _ (by omega),
        cellAt_eq_missing_of_le (Nat.zero_le _)] at hs
      simp at hs

/-- C5: When `surge_applied` is present with a textual representation, the
coercer strips and lowercases each string cell and maps the results
`true` and `1` to true and everything else — `false`, `0`, empty and
unrecognized strings alike — to false, never to missing, without dropping
any row. -/
theorem c5_surge_textual_mapping (t : Table) (i : ℕ) (s : Str)
    (hs : surgeCol ∈ t.cols)
    (htx : isTextualCol (coerceNum t) surgeCol = true)
    (hcell : cellAt t.cols (t.rows.getD i []) surgeCol = Value.str s) :
    (coerce_types t).rows.length = t.rows.length ∧
    (lowerStr (stripStr s) = "true".data ∨ lowerStr (stripStr s) = "1".data →
      cellAt t.cols ((coerce_types t).rows.getD i []) surgeCol = Value.bool true) ∧
    (lowerStr (stripStr s) ≠ "true".data → lowerStr (stripStr s) ≠ "1".data →
      cellAt t.cols ((coerce_types t).rows.getD i []) surgeCol = Value.bool false) := by
  have hlen : (coerce_types t).rows.length = t.rows.length := by
    rw [coerce_types_rows, List.length_map]
  have hi : i < t.rows.length := by
    by_contra hno
    rw [List.getD_eq_default _ _ (by omega),
      cellAt_eq_missing_of_le (Nat.zero_le _)] at hcell
    simp at hcell
  have hrow : (coerce_types t).rows.getD i [] =
      surgeStep t (rowFold t.cols to_numeric_cell NUM_COLS (t.rows.getD i [])) := by
    rw [coerce_types_rows]
    exact getD_map_of_lt _ hi [] []
  have hfold : cellAt t.cols (rowFold t.cols to_numeric_cell NUM_COLS (t.rows.getD i []))
      surgeCol = Value.str s := by
    rw [cellAt_rowFold_not_mem hs NUM_COLS surgeCol_not_mem_NUM_COLS _, hcell]
  have hstep : cellAt t.cols ((coerce_types t).rows.getD i []) surgeCol =
      coerceSurgeTextual (Value.str s) := by
    rw [hrow]
    unfold surgeStep
    rw [if_pos hs, if_pos htx,
      cellAt_setRowCol_self_of_ne_missing (by rw [hfold]; simp), hfold]
  refine ⟨hlen, fun hor => ?_, fun h1 h2 => ?_⟩
  · rw [hstep]
    simp only [coerceSurgeTextual, pyStr]
    rcases hor with h1 | h1
    · rw [h1]
      decide
    · rw [h1]
      decide
  · rw [hstep]
    simp only [coerceSurgeTextual, pyStr]
    unfold surgeMap
    rw [if_neg h1]
    by_cases h3 : lowerStr (stripStr s) = "false".data
    · rw [if_pos h3]
      rfl
    · rw [if_neg h3, if_neg h2]
      by_cases h4 : lowerStr (stripStr s) = "0".data
      · rw [if_pos h4]
        rfl
      · rw [if_neg h4]
        rfl

/-- C10: With a non-textual `surge_applied` column the coercer casts by plain
truthiness, so a missing (NaN) cell comes out as the boolean true — not
false and not missing. -/
theorem c10_surge_truthy_on_missing (t : Table) (i : ℕ)
    (hrect : Rect t) (hs : surgeCol ∈ t.cols)
    (htx : isTextualCol (coerceNum t) surgeCol = false)
    (hi : i < t.rows.length)
    (hcell : cellAt t.cols (t.rows.getD i []) surgeCol = Value.missing) :
    cellAt t.cols ((coerce_types t).rows.getD i []) surgeCol = Value.bool true := by
  have hrow : (coerce_types t).rows.getD i [] =
      surgeStep t (rowFold t.cols to_numeric_cell NUM_COLS (t.rows.getD i [])) := by
    rw [coerce_types_rows]
    exact getD_map_of_lt _ hi [] []
  have hmem : t.rows.getD i [] ∈ t.rows := by
    rw [List.getD_eq_getElem _ _ hi]
    exact List.getElem_mem hi
  have hlen : (rowFold t.cols to_numeric_cell NUM_COLS (t.rows.getD i [])).length =
      t.cols.length := by
    rw [length_rowFold]
    exact hrect _ hmem
  have hfold : cellAt t.cols (rowFold t.cols to_numeric_cell NUM_COLS (t.rows.getD i []))
      surgeCol = Value.missing := by
    rw [cellAt_rowFold_not_mem hs NUM_COLS surgeCol_not_mem_NUM_COLS _, hcell]
  rw [hrow]
  unfold surgeStep
  rw [if_pos hs, if_neg (fun h => Bool.false_ne_true (htx ▸ h)),
    cellAt_setRowCol_self_of_lt (by rw [hlen]; exact colIdx_lt_length hs), hfold]
  rfl

/-- C3: In the final output, hours is the rounded minutes-over-60 whenever a
minutes column is present (derived or original — any pre-existing hours
value is overwritten), equals the rounded seconds-over-3600 when the input
had seconds but no minutes column, and the hours column exists whenever
either source column existed. -/
theorem c3_hour_recomputation (t : Table) (hrect : Rect t) :
    ∀ r ∈ (pipeline t).1.rows,
      ("trip_duration_min".data ∈ (pipeline t).1.cols →
        cellAt (pipeline t).1.cols r "trip_duration_hr".data =
          round6V (divV (cellAt (pipeline t).1.cols r "trip_duration_min".data) 60)) ∧
      ("trip_duration_min".data ∉ (normalize_columns t).cols →
        "trip_duration_sec".data ∈ (normalize_columns t).cols →
        cellAt (pipeline t).1.cols r "trip_duration_hr".data =
          round6V (divV (cellAt (pipeline t).1.cols r "trip_duration_sec".data) 3600)) ∧
      (("trip_duration_min".data ∈ (normalize_columns t).cols ∨
          "trip_duration_sec".data ∈ (normalize_columns t).cols) →
        "trip_duration_hr".data ∈ (pipeline t).1.cols) := by
  intro r hr
  have ht3 : (clean_rows (coerce_types (normalize_columns t))).cols =
      (normalize_columns t).cols := by
    rw [clean_rows_cols, coerce_types_cols]
  have hrect3 : Rect (clean_rows (coerce_types (normalize_columns t))) :=
    rect_clean_rows (rect_coerce_types (rect_normalize hrect))
  have hpipe : pipeline t = drop_duplicates_by_key
      (recompute_duration_fields (clean_rows (coerce_types (normalize_columns t)))) := rfl
  have hout_cols : (pipeline t).1.cols =
      (recompute_duration_fields (clean_rows (coerce_types (normalize_columns t)))).cols := by
    rw [hpipe]
    exact drop_duplicates_cols _
  rw [hpipe] at hr
  have hr4 : r ∈
      (recompute_duration_fields (clean_rows (coerce_types (normalize_columns t)))).rows :=
    mem_drop_duplicates _ r hr
  by_cases hmin : "trip_duration_min".data ∈
      (clean_rows (coerce_types (normalize_columns t))).cols
  · rw [recompute_eq_of_min_mem _ hmin] at hr4 hout_cols
    rw [setCol_rows] at hr4
    rcases List.mem_map.1 hr4 with ⟨r3, hr3, rfl⟩
    have hlen : r3.length = (clean_rows (coerce_types (normalize_columns t))).cols.length :=
      hrect3 r3 hr3
    refine ⟨fun _ => ?_, fun hmin1 _ => ?_, fun _ => ?_⟩
    · rw [hout_cols, cellAt_setColRow_self hlen, cellAt_setColRow_ne hlen hmin (by decide)]
    · exact absurd (ht3 ▸ hmin) hmin1
    · rw [hout_cols]
      exact mem_setCol_self _ _ _
  · by_cases hsec : "trip_duration_sec".data ∈
        (clean_rows (coerce_types (normalize_columns t))).cols
    · rw [recompute_eq_of_sec_only _ hmin hsec] at hr4 hout_cols
      rw [setCol_rows] at hr4
      rcases List.mem_map.1 hr4 with ⟨r1, hr1, rfl⟩
      rw [setCol_rows] at hr1
      rcases List.mem_map.1 hr1 with ⟨r3, hr3, rfl⟩
      have hlen3 : r3.length =
          (clean_rows (coerce_types (normalize_columns t))).cols.length := hrect3 r3 hr3
      have hrectu : Rect (setCol (clean_rows (coerce_types (normalize_columns t)))
          "trip_duration_min".data
          (fun r => divV (cellAt (clean_rows (coerce_types (normalize_columns t))).cols r
            "trip_duration_sec".data) 60)) := rect_setCol hrect3 _ _
      have hlenu : (setColRow (clean_rows (coerce_types (normalize_columns t)))
            "trip_duration_min".data
            (fun r => divV (cellAt (clean_rows (coerce_types (normalize_columns t))).cols r
              "trip_duration_sec".data) 60) r3).length =
          (setCol (clean_rows (coerce_types (normalize_columns t)))
            "trip_duration_min".data
            (fun r => divV (cellAt (clean_rows (coerce_types (normalize_columns t))).cols r
              "trip_duration_sec".data) 60)).cols.length := by
        apply hrectu
        rw [setCol_rows]
        exact List.mem_map_of_mem _ hr3
      have hminu : "trip_duration_min".data ∈
          (setCol (clean_rows (coerce_types (normalize_columns t)))
            "trip_duration_min".data
            (fun r => divV (cellAt (clean_rows (coerce_types (normalize_columns t))).cols r
              "trip_duration_sec".data) 60)).cols := mem_setCol_self _ _ _
      have hsecu : "trip_duration_sec".data ∈
          (setCol (clean_rows (coerce_types (normalize_columns t)))
            "trip_duration_min".data
            (fun r => divV (cellAt (clean_rows (coerce_types (normalize_columns t))).cols r
              "trip_duration_sec".data) 60)).cols := mem_setCol_iff.2 (Or.inl hsec)
      refine ⟨fun _ => ?_, fun _ _ => ?_, fun _ => ?_⟩
      · rw [hout_cols, cellAt_setColRow_self hlenu,
          cellAt_setColRow_ne hlenu hminu (by decide)]
      · rw [hout_cols, cellAt_setColRow_self hlenu,
          cellAt_setColRow_ne hlenu hsecu (by decide),
          cellAt_setColRow_ne hlen3 hsec (by decide),
          cellAt_setColRow_self hlen3, divV_divV]
      · rw [hout_cols]
        exact mem_setCol_self _ _ _
    · rw [recompute_eq_of_no_duration _ hmin hsec] at hr4 hout_cols
      refine ⟨fun hmem => ?_, fun _ hsec1 => ?_, fun hor => ?_⟩
      · rw [hout_cols] at hmem
        exact absurd hmem hmin
      · exact absurd (by rw [ht3]; exact hsec1 : "trip_duration_sec".data ∈
          (clean_rows (coerce_types (normalize_columns t))).cols) hsec
      · rcases hor with h | h
        · rw [← ht3] at h
          exact absurd h hmin
        · rw [← ht3] at h
          exact absurd h hsec

/-- C1: Every row of the pipeline's final output has strictly positive
seconds, minutes and distance where those columns are present, every present
monetary cell missing or non-negative, passenger count at least 1 where
present, and speed in (0, 160] where present. -/
theorem c1_output_invariants (t : Table) (hrect : Rect t) :
    ∀ r ∈ (pipeline t).1.rows,
      ("trip_duration_sec".data ∈ (pipeline t).1.cols →
        isPos (cellAt (pipeline t).1.cols r "trip_duration_sec".data)) ∧
      ("trip_duration_min".data ∈ (pipeline t).1.cols →
        isPos (cellAt (pipeline t).1.cols r "trip_duration_min".data)) ∧
      ("distance_traveled_km".data ∈ (pipeline t).1.cols →
        isPos (cellAt (pipeline t).1.cols r "distance_traveled_km".data)) ∧
      (∀ m ∈ MONEY_COLS, m ∈ (pipeline t).1.cols →
        cellAt (pipeline t).1.cols r m = Value.missing ∨
          ∃ q, cellAt (pipeline t).1.cols r m = Value.num q ∧ 0 ≤ q) ∧
      ("num_of_passengers".data ∈ (pipeline t).1.cols →
        ∃ q, cellAt (pipeline t).1.cols r "num_of_passengers".data = Value.num q ∧
          1 ≤ q) ∧
      ("kph".data ∈ (pipeline t).1.cols →
        ∃ q, cellAt (pipeline t).1.cols r "kph".data = Value.num q ∧
          0 < q ∧ q ≤ 160) := by
  intro r hr
  obtain ⟨r3, hr3, hgen, hminc⟩ := pipeline_transfer t hrect r hr
  have hinv := clean_coerce_invariants hr3
  refine ⟨fun h => ?_, fun h => ?_, fun h => ?_, fun m hm1 hm2 => ?_, fun h => ?_,
    fun h => ?_⟩
  · obtain ⟨hiff, hcell⟩ := hgen "trip_duration_sec".data (by decide) (by decide)
    have h1 := hiff.1 h
    rw [hcell h1]
    exact hinv.1 h1
  · rcases hminc h with ⟨h1, hcell⟩ | ⟨_, h2, hcell⟩
    · rw [hcell]
      exact hinv.2.1 h1
    · rw [hcell]
      rcases hinv.1 h2 with ⟨q, hq, hqpos⟩
      refine ⟨q / 60, by rw [hq]; rfl, by positivity⟩
  · obtain ⟨hiff, hcell⟩ := hgen "distance_traveled_km".data (by decide) (by decide)
    have h1 := hiff.1 h
    rw [hcell h1]
    exact hinv.2.2.1 h1
  · have hne := money_ne_min_hr m hm1
    obtain ⟨hiff, hcell⟩ := hgen m hne.1 hne.2
    have h1 := hiff.1 hm2
    rw [hcell h1]
    exact hinv.2.2.2.1 m hm1 h1
  · obtain ⟨hiff, hcell⟩ := hgen "num_of_passengers".data (by decide) (by decide)
    have h1 := hiff.1 h
    rw [hcell h1]
    exact hinv.2.2.2.2.1 h1
  · obtain ⟨hiff, hcell⟩ := hgen "kph".data (by decide) (by decide)
    have h1 := hiff.1 h
    rw [hcell h1]
    exact hinv.2.2.2.2.2 h1

set_option maxRecDepth 100000 in
set_option maxHeartbeats 1000000 in
/-- C4 as stated is false on the code: the row filter never checks
`trip_duration_hr`, so a pre-existing non-positive hours value survives the
whole pipeline whenever neither seconds nor minutes exist to overwrite it.
This exhibits the output of the pipeline on a one-column table holding
hours = -5: the column is present and the value -5 ≤ 0 is in the output. -/
theorem c4_counterexample :
    "trip_duration_hr".data ∈ (pipeline sampleHourOnly).1.cols ∧
    [Value.num (-5)] ∈ (pipeline sampleHourOnly).1.rows ∧
    cellAt (pipeline sampleHourOnly).1.cols [Value.num (-5)] "trip_duration_hr".data =
      Value.num (-5) ∧
    (-5 : ℚ) ≤ 0 := by decide

/-- C4 amended: of the registry's duration columns, the seconds and minutes
columns hold strictly positive numbers in every output row where they are
present; the hours column carries no such guarantee (it is unchecked by the
filter and rounding can round a positive value down to zero). -/
theorem c4_amended_sec_min_positive (t : Table) (hrect : Rect t) :
    ∀ r ∈ (pipeline t).1.rows,
      ("trip_duration_sec".data ∈ (pipeline t).1.cols →
        isPos (cellAt (pipeline t).1.cols r "trip_duration_sec".data)) ∧
      ("trip_duration_min".data ∈ (pipeline t).1.cols →
        isPos (cellAt (pipeline t).1.cols r "trip_duration_min".data)) := by
  intro r hr
  obtain ⟨r3, hr3, hgen, hminc⟩ := pipeline_transfer t hrect r hr
  have hinv := clean_coerce_invariants hr3
  refine ⟨fun h => ?_, fun h => ?_⟩
  · obtain ⟨hiff, hcell⟩ := hgen "trip_duration_sec".data (by decide) (by decide)
    have h1 := hiff.1 h
    rw [hcell h1]
    exact hinv.1 h1
  · rcases hminc h with ⟨h1, hcell⟩ | ⟨_, h2, hcell⟩
    · rw [hcell]
      exact hinv.2.1 h1
    · rw [hcell]
      rcases hinv.1 h2 with ⟨q, hq, hqpos⟩
      refine ⟨q / 60, by rw [hq]; rfl, by positivity⟩

/-! ## Witnesses: the claim theorems applied at concrete tables -/

theorem c1_witness :
    Rect sampleValid ∧
    ∀ r ∈ (pipeline sampleValid).1.rows,
      ("trip_duration_sec".data ∈ (pipeline sampleValid).1.cols →
        isPos (cellAt (pipeline sampleValid).1.cols r "trip_duration_sec".data)) ∧
      ("trip_duration_min".data ∈ (pipeline sampleValid).1.cols →
        isPos (cellAt (pipeline sampleValid).1.cols r "trip_duration_min".data)) ∧
      ("distance_traveled_km".data ∈ (pipeline sampleValid).1.cols →
        isPos (cellAt (pipeline sampleValid).1.cols r "distance_traveled_km".data)) ∧
      (∀ m ∈ MONEY_COLS, m ∈ (pipeline sampleValid).1.cols →
        cellAt (pipeline sampleValid).1.cols r m = Value.missing ∨
          ∃ q, cellAt (pipeline sampleValid).1.cols r m = Value.num q ∧ 0 ≤ q) ∧
      ("num_of_passengers".data ∈ (pipeline sampleValid).1.cols →
        ∃ q, cellAt (pipeline sampleValid).1.cols r "num_of_passengers".data =
          Value.num q ∧ 1 ≤ q) ∧
      ("kph".data ∈ (pipeline sampleValid).1.cols →
        ∃ q, cellAt (pipeline sampleValid).1.cols r "kph".data = Value.num q ∧
          0 < q ∧ q ≤ 160) :=
  ⟨by unfold Rect; decide, c1_output_invariants sampleValid (by unfold Rect; decide)⟩

theorem c3_witness :
    Rect sampleSeconds ∧
    ∀ r ∈ (pipeline sampleSeconds).1.rows,
      ("trip_duration_min".data ∈ (pipeline sampleSeconds).1.cols →
        cellAt (pipeline sampleSeconds).1.cols r "trip_duration_hr".data =
          round6V (divV (cellAt (pipeline sampleSeconds).1.cols r
            "trip_duration_min".data) 60)) ∧
      ("trip_duration_min".data ∉ (normalize_columns sampleSeconds).cols →
        "trip_duration_sec".data ∈ (normalize_columns sampleSeconds).cols →
        cellAt (pipeline sampleSeconds).1.cols r "trip_duration_hr".data =
          round6V (divV (cellAt (pipeline sampleSeconds).1.cols r
            "trip_duration_sec".data) 3600)) ∧
      (("trip_duration_min".data ∈ (normalize_columns sampleSeconds).cols ∨
          "trip_duration_sec".data ∈ (normalize_columns sampleSeconds).cols) →
        "trip_duration_hr".data ∈ (pipeline sampleSeconds).1.cols) :=
  ⟨by unfold Rect; decide, c3_hour_recomputation sampleSeconds (by unfold Rect; decide)⟩

theorem c4_amended_witness :
    Rect sampleSeconds ∧
    ∀ r ∈ (pipeline sampleSeconds).1.rows,
      ("trip_duration_sec".data ∈ (pipeline sampleSeconds).1.cols →
        isPos (cellAt (pipeline sampleSeconds).1.cols r "trip_duration_sec".data)) ∧
      ("trip_duration_min".data ∈ (pipeline sampleSeconds).1.cols →
        isPos (cellAt (pipeline sampleSeconds).1.cols r "trip_duration_min".data)) :=
  ⟨by unfold Rect; decide,
    c4_amended_sec_min_positive sampleSeconds (by unfold Rect; decide)⟩

theorem c5_witness :
    surgeCol ∈ sampleSurgeText.cols ∧
    isTextualCol (coerceNum sampleSurgeText) surgeCol = true ∧
    cellAt sampleSurgeText.cols (sampleSurgeText.rows.getD 0 []) surgeCol =
      Value.str "TRUE".data ∧
    ((coerce_types sampleSurgeText).rows.length = sampleSurgeText.rows.length ∧
     (lowerStr (stripStr "TRUE".data) = "true".data ∨
        lowerStr (stripStr "TRUE".data) = "1".data →
       cellAt sampleSurgeText.cols ((coerce_types sampleSurgeText).rows.getD 0 [])
         surgeCol = Value.bool true) ∧
     (lowerStr (stripStr "TRUE".data) ≠ "true".data →
        lowerStr (stripStr "TRUE".data) ≠ "1".data →
       cellAt sampleSurgeText.cols ((coerce_types sampleSurgeText).rows.getD 0 [])
         surgeCol = Value.bool false)) :=
  ⟨by decide, by decide, by decide,
    c5_surge_textual_mapping sampleSurgeText 0 "TRUE".data (by decide) (by decide)
      (by decide)⟩

theorem c6_witness :
    "tip".data ∈ NUM_COLS ∧ "tip".data ∈ sampleUnparseable.cols ∧
    ((coerce_types sampleUnparseable).cols = sampleUnparseable.cols ∧
     (coerce_types sampleUnparseable).rows.length = sampleUnparseable.rows.length ∧
     isNumOrMissing (cellAt sampleUnparseable.cols
       ((coerce_types sampleUnparseable).rows.getD 0 []) "tip".data) ∧
     (∀ s, cellAt sampleUnparseable.cols (sampleUnparseable.rows.getD 0 []) "tip".data =
         Value.str s → parseRat s = none →
       cellAt sampleUnparseable.cols ((coerce_types sampleUnparseable).rows.getD 0 [])
         "tip".data = Value.missing)) :=
  ⟨by decide, by decide,
    c6_coercion_total sampleUnparseable 0 "tip".data (by decide) (by decide)⟩

theorem c7_witness :
    [Value.num 2, Value.missing, Value.num 1, Value.num 30] ∈ sampleValid.rows ∧
    ((("trip_duration_sec".data ∈ sampleValid.cols →
        cellAt sampleValid.cols [Value.num 2, Value.missing, Value.num 1, Value.num 30]
          "trip_duration_sec".data = Value.missing →
        [Value.num 2, Value.missing, Value.num 1, Value.num 30] ∉
          (clean_rows sampleValid).rows) ∧
      ("trip_duration_min".data ∈ sampleValid.cols →
        cellAt sampleValid.cols [Value.num 2, Value.missing, Value.num 1, Value.num 30]
          "trip_duration_min".data = Value.missing →
        [Value.num 2, Value.missing, Value.num 1, Value.num 30] ∉
          (clean_rows sampleValid).rows) ∧
      ("distance_traveled_km".data ∈ sampleValid.cols →
        cellAt sampleValid.cols [Value.num 2, Value.missing, Value.num 1, Value.num 30]
          "distance_traveled_km".data = Value.missing →
        [Value.num 2, Value.missing, Value.num 1, Value.num 30] ∉
          (clean_rows sampleValid).rows) ∧
      ("num_of_passengers".data ∈ sampleValid.cols →
        cellAt sampleValid.cols [Value.num 2, Value.missing, Value.num 1, Value.num 30]
          "num_of_passengers".data = Value.missing →
        [Value.num 2, Value.missing, Value.num 1, Value.num 30] ∉
          (clean_rows sampleValid).rows) ∧
      ("kph".data ∈ sampleValid.cols →
        cellAt sampleValid.cols [Value.num 2, Value.missing, Value.num 1, Value.num 30]
          "kph".data = Value.missing →
        [Value.num 2, Value.missing, Value.num 1, Value.num 30] ∉
          (clean_rows sampleValid).rows)) ∧
     ((∀ c ∈ RULE_COLS, c ∈ sampleValid.cols → c ∉ MONEY_COLS →
         rulePred c (cellAt sampleValid.cols
           [Value.num 2, Value.missing, Value.num 1, Value.num 30] c) = true) →
       (∀ m ∈ MONEY_COLS, m ∈ sampleValid.cols →
         cellAt sampleValid.cols [Value.num 2, Value.missing, Value.num 1, Value.num 30]
           m = Value.missing) →
       [Value.num 2, Value.missing, Value.num 1, Value.num 30] ∈
         (clean_rows sampleValid).rows)) :=
  ⟨by decide,
    c7_missing_is_violating sampleValid
      [Value.num 2, Value.missing, Value.num 1, Value.num 30] (by decide)⟩

theorem c10_witness :
    Rect sampleSurgeMissing ∧ surgeCol ∈ sampleSurgeMissing.cols ∧
    isTextualCol (coerceNum sampleSurgeMissing) surgeCol = false ∧
    0 < sampleSurgeMissing.rows.length ∧
    cellAt sampleSurgeMissing.cols (sampleSurgeMissing.rows.getD 0 []) surgeCol =
      Value.missing ∧
    cellAt sampleSurgeMissing.cols ((coerce_types sampleSurgeMissing).rows.getD 0 [])
      surgeCol = Value.bool true :=
  ⟨by unfold Rect; decide, by decide, by decide, by decide, by decide,
    c10_surge_truthy_on_missing sampleSurgeMissing 0 (by unfold Rect; decide) (by decide)
      (by decide) (by decide) (by decide)⟩

end TaxiSilver
